import Mathlib

/-!
Verification development for the mcp_poker Texas Hold'em server.

The definitions below are a shallow embedding of the TypeScript sources:
`src/models/Card.ts` (absent from the sources; modelled from the spec),
`src/models/Player.ts`, `src/models/Table.ts`, `src/services/HandEvaluator.ts`
and the state projection of `PokerServer.handleGetTableState`.

Modelling conventions:
* JS `number` game quantities (chips, bets, pot, blinds, indices) are `Int`.
* The deck is the list of cards in deal order (`Deck.dealCard` pops the top).
  `Deck.shuffle` is random, so every operation that draws a fresh deck takes
  the shuffled deck as an explicit argument.
* `setTimeout`-scheduled work (action timers, delayed `startGame` after a
  showdown) is asynchronous and is not part of the synchronous transition
  being modelled.
* Broadcast/logging calls are side effects with no effect on table state and
  are dropped.
* JS `Array.prototype.sort` is stable (ES2019); it is modelled by
  `List.insertionSort` with the non-strict "may precede" relation of the
  comparator, which is the same stable sort for the total preorders used here.
-/

/-- Suits of a standard deck. `Card.ts` is absent from the sources; the spec
fixes exactly four suit values. -/
inductive Suit where
  | hearts
  | diamonds
  | clubs
  | spades
deriving DecidableEq, Repr, Inhabited

/-- Modelled from the spec: the immutable card value of the missing
`Card.ts`. `rank` is the numeric rank value 2..14 (14 = Ace) fixed by
`RANK_VALUES` in `HandEvaluator.ts`; equality is by (rank, suit). -/
structure Card where
  rank : Nat
  suit : Suit
deriving DecidableEq, Repr

instance : Inhabited Card := ⟨⟨2, Suit.hearts⟩⟩

/-- Modelled from the spec: one-letter suit tag used by `Card.toString`, as
parsed by the bundled web client (`formatCardWithSymbols`). -/
def Suit.letter : Suit → String
  | .hearts => "h"
  | .diamonds => "d"
  | .clubs => "c"
  | .spades => "s"

/-- Modelled from the spec: `Card.toString()` (serialization only) renders the
rank followed by the one-letter suit. Only emptiness of serialized hands
matters for the claims below. -/
def Card.str (c : Card) : String :=
  (match c.rank with
   | 11 => "J"
   | 12 => "Q"
   | 13 => "K"
   | 14 => "A"
   | n => toString n) ++ c.suit.letter

/- The numeric values of the `HandRank` enum of `HandEvaluator.ts`. -/
namespace HandRank

def HIGH_CARD : Nat := 0

def PAIR : Nat := 1

def TWO_PAIR : Nat := 2

def THREE_OF_A_KIND : Nat := 3

def STRAIGHT : Nat := 4

def FLUSH : Nat := 5

def FULL_HOUSE : Nat := 6

def FOUR_OF_A_KIND : Nat := 7

def STRAIGHT_FLUSH : Nat := 8

def ROYAL_FLUSH : Nat := 9

end HandRank

/-- Result record of `HandEvaluator.evaluateHand`. The human-readable
`description` field is used only for logging and is omitted. -/
structure HandResult where
  rank : Nat
  cards : List Card
deriving DecidableEq, Repr, Inhabited

namespace HandEvaluator

/-- First-occurrence-ordered distinct keys of a card list, as produced by the
insertion order of a JS object literal built with `groups[key].push(card)`.
(For numeric-looking rank keys JS would iterate integer keys in ascending
order instead; at every call site below the consumed group is unique or the
code takes an explicit maximum or sorts, so the result does not depend on the
iteration order.) -/
def uniqueKeysAux {κ : Type} [DecidableEq κ] (f : Card → κ) (seen : List κ) :
    List Card → List κ
  | [] => []
  | c :: cs =>
    if f c ∈ seen then uniqueKeysAux f seen cs
    else f c :: uniqueKeysAux f (f c :: seen) cs

/-- `HandEvaluator.groupBySuit`: suits in first-occurrence order, each with the
cards of that suit in input order. -/
def groupBySuit (cards : List Card) : List (Suit × List Card) :=
  (uniqueKeysAux (·.suit) [] cards).map
    (fun s => (s, cards.filter (fun c => c.suit = s)))

/-- `HandEvaluator.groupByRank`: ranks with the cards of that rank in input
order (see the iteration-order note on `uniqueKeysAux`). -/
def groupByRank (cards : List Card) : List (Nat × List Card) :=
  (uniqueKeysAux (·.rank) [] cards).map
    (fun r => (r, cards.filter (fun c => c.rank = r)))

/-- The descending-by-rank card sort `(a, b) => RANK_VALUES[b] - RANK_VALUES[a]`
(stable). -/
def sortByRankDesc (cards : List Card) : List Card :=
  List.insertionSort (fun a b => b.rank ≤ a.rank) cards

/-- `HandEvaluator.checkRoyalFlush`. -/
def checkRoyalFlush (cards : List Card) : Option HandResult :=
  (groupBySuit cards).findSome? (fun g =>
    if 5 ≤ g.2.length then
      let royal := g.2.filter (fun c =>
        c.rank = 10 || c.rank = 11 || c.rank = 12 || c.rank = 13 || c.rank = 14)
      if royal.length = 5 then some ⟨HandRank.ROYAL_FLUSH, royal⟩ else none
    else none)

/-- The run-building loop of `HandEvaluator.findStraight`: `prev` is the
previous array element, `run` the current consecutive run (returned as soon as
it reaches 5 cards); an equal rank is skipped, any other gap resets the run. -/
def straightScanAux (prev : Card) (run : List Card) : List Card → Option (List Card)
  | [] => none
  | c :: rest =>
    if prev.rank = c.rank + 1 then
      let run' := run ++ [c]
      if run'.length = 5 then some run' else straightScanAux c run' rest
    else if prev.rank ≠ c.rank then straightScanAux c [c] rest
    else straightScanAux c run rest

/-- `HandEvaluator.findStraight` on a descending-sorted card list: the
A-5-4-3-2 wheel special case first (reordered 5,4,3,2,A), then the
consecutive-run scan. The TS non-null assertions on the five wheel lookups are
modelled with `getD` (the five ranks are present whenever the branch runs on
the evaluator's duplicate-free inputs). -/
def findStraight (sorted : List Card) : Option (List Card) :=
  if sorted.length < 5 then none
  else
    match sorted with
    | [] => none
    | c0 :: rest =>
      let wheel : Option (List Card) :=
        if c0.rank = 14 then
          let low := sorted.filter (fun c =>
            c.rank = 14 || c.rank = 2 || c.rank = 3 || c.rank = 4 || c.rank = 5)
          if 5 ≤ low.length then
            some [(low.find? (fun c => c.rank = 5)).getD default,
                  (low.find? (fun c => c.rank = 4)).getD default,
                  (low.find? (fun c => c.rank = 3)).getD default,
                  (low.find? (fun c => c.rank = 2)).getD default,
                  (low.find? (fun c => c.rank = 14)).getD default]
          else none
        else none
      match wheel with
      | some w => some w
      | none => straightScanAux c0 [c0] rest

/-- `HandEvaluator.checkStraightFlush`. -/
def checkStraightFlush (cards : List Card) : Option HandResult :=
  (groupBySuit cards).findSome? (fun g =>
    if 5 ≤ g.2.length then
      match findStraight (sortByRankDesc g.2) with
      | some run => some ⟨HandRank.STRAIGHT_FLUSH, run⟩
      | none => none
    else none)

/-- `HandEvaluator.checkFourOfAKind`. `kickers[0]` is modelled by `take 1`
(present on every ≥5-card input). -/
def checkFourOfAKind (cards : List Card) : Option HandResult :=
  (groupByRank cards).findSome? (fun g =>
    if g.2.length = 4 then
      let kickers := sortByRankDesc (cards.filter (fun c => c.rank ≠ g.1))
      some ⟨HandRank.FOUR_OF_A_KIND, g.2 ++ kickers.take 1⟩
    else none)

/-- The best-rank selection loops of `HandEvaluator.checkFullHouse`: the
highest rank whose group has at least `k` members, excluding `excluded`. -/
def bestRankAtLeast (groups : List (Nat × List Card)) (k : Nat)
    (excluded : Option Nat) : Option Nat :=
  groups.foldl (fun best g =>
    if k ≤ g.2.length ∧ excluded ≠ some g.1 then
      match best with
      | none => some g.1
      | some b => if b < g.1 then some g.1 else some b
    else best) none

/-- `HandEvaluator.checkFullHouse`. -/
def checkFullHouse (cards : List Card) : Option HandResult :=
  let groups := groupByRank cards
  match bestRankAtLeast groups 3 none with
  | none => none
  | some t3 =>
    match bestRankAtLeast groups 2 (some t3) with
    | none => none
    | some p2 =>
      let g3 := ((groups.find? (fun g => g.1 = t3)).map Prod.snd).getD []
      let g2 := ((groups.find? (fun g => g.1 = p2)).map Prod.snd).getD []
      some ⟨HandRank.FULL_HOUSE, g3.take 3 ++ g2.take 2⟩

/-- `HandEvaluator.checkFlush`. -/
def checkFlush (cards : List Card) : Option HandResult :=
  (groupBySuit cards).findSome? (fun g =>
    if 5 ≤ g.2.length then
      some ⟨HandRank.FLUSH, (sortByRankDesc g.2).take 5⟩
    else none)

/-- `HandEvaluator.getUniqueRankCards`: one card per distinct rank, first
occurrence, input order. -/
def uniqueRankAux (seen : List Nat) : List Card → List Card
  | [] => []
  | c :: cs =>
    if c.rank ∈ seen then uniqueRankAux seen cs
    else c :: uniqueRankAux (c.rank :: seen) cs

/-- `HandEvaluator.getUniqueRankCards`. -/
def getUniqueRankCards (cards : List Card) : List Card := uniqueRankAux [] cards

/-- `HandEvaluator.checkStraight`. -/
def checkStraight (cards : List Card) : Option HandResult :=
  match findStraight (sortByRankDesc (getUniqueRankCards cards)) with
  | some run => some ⟨HandRank.STRAIGHT, run⟩
  | none => none

/-- `HandEvaluator.checkThreeOfAKind` (`kickers[0]`, `kickers[1]` as `take 2`). -/
def checkThreeOfAKind (cards : List Card) : Option HandResult :=
  (groupByRank cards).findSome? (fun g =>
    if g.2.length = 3 then
      let kickers := sortByRankDesc (cards.filter (fun c => c.rank ≠ g.1))
      some ⟨HandRank.THREE_OF_A_KIND, g.2 ++ kickers.take 2⟩
    else none)

/-- `HandEvaluator.checkTwoPair`. -/
def checkTwoPair (cards : List Card) : Option HandResult :=
  let pairs := (groupByRank cards).filterMap (fun g =>
    if 2 ≤ g.2.length then some (g.2.take 2) else none)
  if 2 ≤ pairs.length then
    let sortedPairs := List.insertionSort
      (fun a b => (b.headD default).rank ≤ (a.headD default).rank) pairs
    let topTwo := (sortedPairs.take 2).flatten
    let r0 := (topTwo.getD 0 default).rank
    let r2 := (topTwo.getD 2 default).rank
    let kickers := sortByRankDesc (cards.filter (fun c => c.rank ≠ r0 && c.rank ≠ r2))
    some ⟨HandRank.TWO_PAIR, topTwo ++ kickers.take 1⟩
  else none

/-- `HandEvaluator.checkPair` (three kickers as `take 3`). -/
def checkPair (cards : List Card) : Option HandResult :=
  (groupByRank cards).findSome? (fun g =>
    if g.2.length = 2 then
      let kickers := sortByRankDesc (cards.filter (fun c => c.rank ≠ g.1))
      some ⟨HandRank.PAIR, g.2 ++ kickers.take 3⟩
    else none)

/-- `HandEvaluator.getHighCard`. -/
def getHighCard (cards : List Card) : HandResult :=
  ⟨HandRank.HIGH_CARD, (sortByRankDesc cards).take 5⟩

/-- `HandEvaluator.evaluateHand`: the top-down category cascade, first match
wins. -/
def evaluateHand (playerCards communityCards : List Card) : HandResult :=
  let allCards := playerCards ++ communityCards
  match checkRoyalFlush allCards with
  | some r => r
  | none =>
  match checkStraightFlush allCards with
  | some r => r
  | none =>
  match checkFourOfAKind allCards with
  | some r => r
  | none =>
  match checkFullHouse allCards with
  | some r => r
  | none =>
  match checkFlush allCards with
  | some r => r
  | none =>
  match checkStraight allCards with
  | some r => r
  | none =>
  match checkThreeOfAKind allCards with
  | some r => r
  | none =>
  match checkTwoPair allCards with
  | some r => r
  | none =>
  match checkPair allCards with
  | some r => r
  | none => getHighCard allCards

/-- The pairwise card-rank comparison loop of `HandEvaluator.compareHands`
(runs to the shorter list, 0 afterwards). -/
def cmpCardRanks : List Card → List Card → Int
  | c1 :: r1, c2 :: r2 =>
    if c1.rank ≠ c2.rank then (c1.rank : Int) - (c2.rank : Int)
    else cmpCardRanks r1 r2
  | _, _ => 0

/-- `HandEvaluator.compareHands`: positive iff `h1` beats `h2`. -/
def compareHands (h1 h2 : HandResult) : Int :=
  if h1.rank ≠ h2.rank then (h1.rank : Int) - (h2.rank : Int)
  else cmpCardRanks h1.cards h2.cards

end HandEvaluator

/-- `Player` of `src/models/Player.ts` plus `hasActedThisStage`, which
`Table.ts` assigns on the player object (an absent JS property reads as
`undefined`, which is falsy, so its initial value is `false`). -/
structure Player where
  id : String
  name : String
  chips : Int
  hand : List Card
  bet : Int
  folded : Bool
  isAllIn : Bool
  isDealer : Bool
  isSmallBlind : Bool
  isBigBlind : Bool
  isActive : Bool
  isChecked : Bool
  hasActedThisStage : Bool
deriving DecidableEq, Repr

/-- The `Player` constructor. -/
def Player.new (id name : String) (initialChips : Int) : Player :=
  ⟨id, name, initialChips, [], 0, false, false, false, false, false, false, false, false⟩

instance : Inhabited Player := ⟨Player.new "" "" 0⟩

/-- `Player.resetHand` (note: it does not reset `isChecked` or
`hasActedThisStage`; `Table.startGame` clears the latter separately). -/
def Player.resetHand (p : Player) : Player :=
  { p with hand := [], bet := 0, folded := false, isAllIn := false,
           isDealer := false, isSmallBlind := false, isBigBlind := false,
           isActive := false }

/-- `Player.placeBet`: deducts `min(amount, chips)`, adds it to the street bet,
returns the actual amount; marks all-in when the stack hits exactly 0. -/
def Player.placeBet (p : Player) (amount : Int) : Int × Player :=
  let actualBet := min amount p.chips
  let chips := p.chips - actualBet
  (actualBet,
   { p with chips := chips, bet := p.bet + actualBet,
            isAllIn := if chips = 0 then true else p.isAllIn })

/-- `Player.fold`. -/
def Player.fold (p : Player) : Player := { p with folded := true }

/-- `Player.addCard`. -/
def Player.addCard (p : Player) (c : Card) : Player := { p with hand := p.hand ++ [c] }

/-- The `GameStage` enum of `Table.ts`. -/
inductive GameStage where
  | waiting
  | preFlop
  | flop
  | turn
  | river
  | showdown
deriving DecidableEq, Repr

/-- The mutable state of `Table` (`Table.ts`). The deck is the list of cards
in deal order. The `actionTimer` fields hold real-time data and are omitted
(see the module comment). -/
structure Table where
  id : String
  name : String
  players : List Player
  deck : List Card
  communityCards : List Card
  pot : Int
  currentBet : Int
  smallBlind : Int
  bigBlind : Int
  dealerPosition : Int
  currentPlayerIndex : Int
  stage : GameStage
  maxPlayers : Nat
  minPlayers : Nat
deriving DecidableEq, Repr

/-- The `Table` constructor (pre-game deck contents are irrelevant: the first
`startGame` replaces the deck). -/
def Table.new (id name : String) (smallBlind bigBlind : Int) (maxPlayers : Nat) : Table :=
  ⟨id, name, [], [], [], 0, 0, smallBlind, bigBlind, -1, -1, .waiting, maxPlayers, 2⟩

/-- In-place update of one array slot, `ps[i] = f(ps[i])` (out-of-range is a
no-op; the TS code never indexes out of range on the modelled paths). -/
def setAt {α : Type} : List α → Nat → (α → α) → List α
  | [], _, _ => []
  | x :: xs, 0, f => f x :: xs
  | x :: xs, Nat.succ n, f => x :: setAt xs n f

/-- JS array read `ps[i]` (the modelled paths only read in-range slots). -/
def getP (ps : List Player) (i : Nat) : Player := ps.getD i default

/-- `players.findIndex(p => p.id === playerId)`, with the JS `-1` convention. -/
def findIndexId : List Player → String → Int
  | [], _ => -1
  | p :: ps, pid =>
    if p.id = pid then 0
    else
      let r := findIndexId ps pid
      if r = -1 then -1 else r + 1

/-- Total chips held by the seated players. -/
def sumChips (ps : List Player) : Int := (ps.map Player.chips).sum

/-- Indices of the non-folded ("active") players, ascending. -/
def nonFoldedIdx (ps : List Player) : List Nat :=
  (List.range ps.length).filter (fun i => !(getP ps i).folded)

/-- `ps[i].chips += a` (in-range only, like the TS object aliasing it models). -/
def addChips (ps : List Player) (i : Nat) (a : Int) : List Player :=
  setAt ps i (fun p => { p with chips := p.chips + a })

namespace Table

/-- One pass of the hole-card deal loop in `startGame`: each seated player in
order draws one card from the deck top (`if (card)` skips an empty deck). -/
def dealHoleCardsPass (t : Table) : Table :=
  (List.range t.players.length).foldl
    (fun s i =>
      match s.deck with
      | [] => s
      | c :: rest =>
        { s with deck := rest,
                 players := setAt s.players i (fun p => p.addCard c) })
    t

/-- Deal `k` community cards from the deck top (`if (card)` skips an empty
deck). -/
def dealCommunity (t : Table) (k : Nat) : Table :=
  (List.range k).foldl
    (fun s _ =>
      match s.deck with
      | [] => s
      | c :: rest =>
        { s with deck := rest, communityCards := s.communityCards ++ [c] })
    t

/-- `Table.startGame`, with the freshly shuffled deck passed explicitly (the
TS code draws it from `new Deck()`). Resets the hand state, rotates the
dealer, posts the blinds, deals two hole cards per player and opens PRE_FLOP
with the seat after the big blind to act. -/
def startGame (t : Table) (freshDeck : List Card) : Table :=
  if t.players.length < t.minPlayers then t
  else
    let n := t.players.length
    let t := { t with deck := freshDeck, communityCards := [], pot := 0, currentBet := 0,
                      players := t.players.map (fun (p : Player) =>
                        { p.resetHand with hasActedThisStage := false }) }
    let dealer := ((t.dealerPosition + 1) % (n : Int)).toNat
    let sb := (dealer + 1) % n
    let bb := (dealer + 2) % n
    let t := { t with dealerPosition := (dealer : Int) }
    let t := { t with players := setAt t.players dealer (fun p => { p with isDealer := true }) }
    let t := { t with players := setAt t.players sb (fun p => { p with isSmallBlind := true }) }
    let t := { t with players := setAt t.players bb (fun p => { p with isBigBlind := true }) }
    let r1 := (getP t.players sb).placeBet t.smallBlind
    let t := { t with pot := t.pot + r1.1, players := setAt t.players sb (fun _ => r1.2) }
    let r2 := (getP t.players bb).placeBet t.bigBlind
    let t := { t with pot := t.pot + r2.1, players := setAt t.players bb (fun _ => r2.2) }
    let t := { t with currentBet := t.bigBlind }
    let t := t.dealHoleCardsPass.dealHoleCardsPass
    let cpi := (bb + 1) % n
    { t with currentPlayerIndex := (cpi : Int),
             players := setAt t.players cpi (fun p => { p with isActive := true }),
             stage := .preFlop }

/-- `Table.addPlayer`: fails when full; pushes the player; starts a hand when
the seat count reaches `minPlayers` while WAITING (the fresh deck for that
start is passed explicitly). -/
def addPlayer (t : Table) (p : Player) (freshDeck : List Card) : Bool × Table :=
  if t.maxPlayers ≤ t.players.length then (false, t)
  else
    let t := { t with players := t.players ++ [p] }
    if t.minPlayers ≤ t.players.length ∧ t.stage = GameStage.waiting then
      (true, t.startGame freshDeck)
    else (true, t)

/-- `Table.removePlayer`. -/
def removePlayer (t : Table) (playerId : String) : Bool × Table :=
  let i := findIndexId t.players playerId
  if i = -1 then (false, t)
  else
    let t := { t with players := t.players.take i.toNat ++ t.players.drop (i.toNat + 1) }
    if t.players.length < t.minPlayers then (true, { t with stage := .waiting })
    else (true, t)

/-- `Table.isRoundComplete`. -/
def isRoundComplete (t : Table) : Bool :=
  if (t.players.filter (fun p => !p.folded)).length = 1 then true
  else
    let nonFolded := t.players.filter (fun p => !p.folded)
    if !(nonFolded.all (fun p => p.hasActedThisStage || p.isAllIn)) then false
    else t.players.all (fun p =>
      p.folded || p.isAllIn || p.isChecked ||
        decide (0 < t.currentBet ∧ p.bet = t.currentBet))

/-- `Table.haveAllPlayersChecked`. -/
def haveAllPlayersChecked (t : Table) : Bool :=
  let active := t.players.filter (fun p => !p.folded && !p.isAllIn)
  if active.length ≤ 1 then true else active.all (·.isChecked)

/-- The seat-skip condition of `moveToNextPlayer`: folded, all-in, or — when a
bet is open and the stage is not PRE_FLOP — already matching `currentBet`. -/
def nextSkip (t : Table) (i : Nat) : Bool :=
  let p := getP t.players i
  p.folded || p.isAllIn ||
    decide (0 < t.currentBet ∧ p.bet = t.currentBet ∧ t.stage ≠ GameStage.preFlop)

/-- The seat-scan loop of `moveToNextPlayer`: test candidate `c`; if skipped,
move one seat forward and stop with `none` (round over) upon returning to
`cur`. Fuel `players.length + 1` reproduces the TS loop whenever
`0 ≤ currentPlayerIndex < players.length`, which holds at every call site. -/
def scanNext (t : Table) (cur : Nat) : Nat → Nat → Option Nat
  | _, 0 => none
  | c, Nat.succ fuel =>
    if t.nextSkip c then
      let c' := (c + 1) % t.players.length
      if c' = cur then none else t.scanNext cur c' fuel
    else some c

/-- The seat-skip condition of `moveToNextStage` (folded or all-in). -/
def stageSkip (p : Player) : Bool := p.folded || p.isAllIn

/-- The first-to-act scan of `moveToNextStage`: starts at the seat after the
dealer and, unlike `scanNext`, tests the start seat itself; `none` when the
scan comes back around to the start. -/
def stageScan (ps : List Player) (start : Nat) : Nat → Nat → Option Nat
  | _, 0 => none
  | c, Nat.succ fuel =>
    if stageSkip (getP ps c) then
      let c' := (c + 1) % ps.length
      if c' = start then none else stageScan ps start c' fuel
    else some c

/-- The index-and-hand-result list of `determineWinner`'s evaluation loop
(index into `players` in place of the aliased player object). -/
def showdownEvals (t : Table) : List (Nat × HandResult) :=
  (nonFoldedIdx t.players).map
    (fun i => (i, HandEvaluator.evaluateHand (getP t.players i).hand t.communityCards))

/-- `playerHands.sort((a, b) => compareHands(b.handResult, a.handResult))`:
the stable descending sort by hand strength. -/
def showdownRanked (t : Table) : List (Nat × HandResult) :=
  List.insertionSort (fun a b => HandEvaluator.compareHands b.2 a.2 ≤ 0) t.showdownEvals

/-- The winner collection of `determineWinner`: the top entry plus every
subsequent entry that ties with it (stop at the first non-tie). -/
def showdownWinners (t : Table) : List (Nat × HandResult) :=
  match t.showdownRanked with
  | [] => []
  | h :: tl => h :: tl.takeWhile (fun x => HandEvaluator.compareHands h.2 x.2 = 0)

/-- The player list after `determineWinner`'s payout: a sole non-folded player
takes the whole pot; otherwise every winner gets `Math.floor(pot / winners)`
and the first winner also gets the remainder. `Math.floor(pot/k)` is floor
division and the JS remainder `pot % k` truncates toward zero; for the
nonnegative pots and positive winner counts that occur both coincide with
Lean's Int `/` and `%` used here. (With zero non-folded players the TS code
throws; that branch is unreachable and modelled as paying no one.) -/
def payoutPlayers (t : Table) : List Player :=
  let idxs := nonFoldedIdx t.players
  if idxs.length = 1 then
    addChips t.players (idxs.headD 0) t.pot
  else
    let winners := t.showdownWinners
    let winAmount := t.pot / (winners.length : Int)
    let remainder := t.pot % (winners.length : Int)
    let paid := winners.foldl (fun ps w => addChips ps w.1 winAmount) t.players
    if 0 < remainder then
      match winners with
      | [] => paid
      | w :: _ => addChips paid w.1 remainder
    else paid

/-- `Table.removePlayersWithNoChips`: drop every player with `chips <= 0`
(the TS splice-by-id loop equals this filter for the unique player ids the
registry hands out); when someone was dropped and fewer than `minPlayers`
remain, force WAITING. -/
def removePlayersWithNoChips (t : Table) : Table :=
  let toRemove := t.players.filter (fun p => p.chips ≤ 0)
  if 0 < toRemove.length then
    let remaining := t.players.filter (fun p => !(p.chips ≤ 0))
    if remaining.length < t.minPlayers then
      { t with players := remaining, stage := .waiting }
    else { t with players := remaining }
  else t

/-- `Table.determineWinner`: payout, clear the pot, then remove broke
players. -/
def determineWinner (t : Table) : Table :=
  removePlayersWithNoChips { t with players := t.payoutPlayers, pot := 0 }

/-- The street-reset prologue of `moveToNextStage`: clear every player's
active/checked/acted flags and street bet, and reset `currentBet`. -/
def resetForNextStage (t : Table) : Table :=
  { t with
    players := t.players.map (fun p =>
      { p with isActive := false, isChecked := false, bet := 0,
               hasActedThisStage := false }),
    currentBet := 0 }

/-- The deal-and-advance switch of `moveToNextStage` for the non-terminal
stages (WAITING has no switch case and falls through unchanged). -/
def advanceStageDeal (t : Table) : Table :=
  match t.stage with
  | .preFlop => { t.dealCommunity 3 with stage := .flop }
  | .flop => { t.dealCommunity 1 with stage := .turn }
  | .turn => { t.dealCommunity 1 with stage := .river }
  | _ => t

/-- `Table.moveToNextStage` (fuel bounds its two self-recursions: the stage
cascade when every seat is folded/all-in, and the degenerate WAITING loop the
TS code would spin on forever; fuel 8 is never exhausted on reachable
states). Resets street bets, checked/acted flags and `currentBet`; deals the
next street or runs the showdown; then seats the first eligible player after
the dealer. -/
def moveToNextStage : Nat → Table → Table
  | 0, t => t
  | Nat.succ fuel, t =>
    let t := resetForNextStage t
    match t.stage with
    | .showdown => t
    | .river =>
      -- stage = SHOWDOWN, determineWinner; the delayed new hand is a timer
      determineWinner { t with stage := .showdown }
    | _ =>
      let t := advanceStageDeal t
      let start := ((t.dealerPosition + 1) % (t.players.length : Int)).toNat
      match stageScan t.players start start (t.players.length + 1) with
      | some j =>
        { t with currentPlayerIndex := (j : Int),
                 players := setAt t.players j (fun p => { p with isActive := true }) }
      | none => moveToNextStage fuel t

/-- `Table.moveToNextPlayer`: last non-folded player wins the pot at once
(stage SHOWDOWN; the delayed new hand is a timer); a complete round advances
the stage; otherwise the forward seat scan either finds the next player to
act or, coming full circle, advances the stage. -/
def moveToNextPlayer (fuel : Nat) (t : Table) : Table :=
  if (t.players.filter (fun p => !p.folded)).length = 1 then
    { t with players := addChips t.players ((nonFoldedIdx t.players).headD 0) t.pot,
             pot := 0, stage := .showdown }
  else if t.isRoundComplete then moveToNextStage fuel t
  else
    let n := t.players.length
    let cur := t.currentPlayerIndex.toNat
    match t.scanNext cur ((cur + 1) % n) (n + 1) with
    | some j =>
      { t with currentPlayerIndex := (j : Int),
               players := setAt t.players j (fun p => { p with isActive := true }) }
    | none => moveToNextStage fuel t

/-- `Table.handlePlayerAction`. The action is the raw string value of the
`PlayerAction` enum (the server casts arbitrary client strings into it);
anything else hits the `default` branch. Returns the TS boolean with the
updated table. -/
def handlePlayerAction (t : Table) (playerId : String) (action : String)
    (amount : Int) : Bool × Table :=
  let playerIndex := findIndexId t.players playerId
  if playerIndex = -1 ∨ playerIndex ≠ t.currentPlayerIndex then (false, t)
  else
    let i := playerIndex.toNat
    let player := getP t.players i
    -- the shared tail: mark acted, clear active, move on
    let finish := fun (t' : Table) =>
      let t'' := { t' with players := setAt t'.players i (fun p =>
        { p with hasActedThisStage := true, isActive := false }) }
      (true, moveToNextPlayer 8 t'')
    match action with
    | "fold" =>
      finish { t with players := setAt t.players i Player.fold }
    | "check" =>
      if player.bet < t.currentBet then (false, t)
      else
        let t1 := { t with players := setAt t.players i (fun p =>
          { p with isChecked := true }) }
        if t1.haveAllPlayersChecked then
          -- street ends at once: clear active, skip the acted flag and
          -- the normal turn advancement
          let t2 := { t1 with players := setAt t1.players i (fun p =>
            { p with isActive := false }) }
          (true, moveToNextStage 8 t2)
        else finish t1
    | "call" =>
      let callAmount := t.currentBet - player.bet
      if callAmount ≤ 0 then finish t
      else if player.chips < callAmount then
        finish { t with pot := t.pot + player.chips,
                        players := setAt t.players i (fun p =>
                          { p with bet := p.bet + p.chips, chips := 0, isAllIn := true }) }
      else
        finish { t with pot := t.pot + callAmount,
                        players := setAt t.players i (fun p =>
                          { p with chips := p.chips - callAmount, bet := p.bet + callAmount }) }
    | "bet" =>
      if 0 < t.currentBet ∨ amount < t.bigBlind then (false, t)
      else
        let r := player.placeBet amount
        let t1 := { t with pot := t.pot + r.1, currentBet := amount,
                           players := setAt t.players i (fun _ => r.2) }
        finish { t1 with players := t1.players.map (fun (p : Player) => { p with isChecked := false }) }
    | "raise" =>
      if amount ≤ t.currentBet ∨ amount < t.currentBet * 2 then (false, t)
      else
        let r := player.placeBet (amount - player.bet)
        let t1 := { t with pot := t.pot + r.1, currentBet := amount,
                           players := setAt t.players i (fun _ => r.2) }
        finish { t1 with players := t1.players.map (fun (p : Player) => { p with isChecked := false }) }
    | "all-in" =>
      let r := player.placeBet player.chips
      let t1 := { t with pot := t.pot + r.1,
                         currentBet := if t.currentBet < r.2.bet then r.2.bet else t.currentBet,
                         players := setAt t.players i (fun _ => r.2) }
      finish t1
    | _ => (false, t)

end Table

/-- The serialized player record of `Player.toJSON`: all public fields plus
the player's full hole cards as strings. -/
structure PlayerView where
  id : String
  name : String
  chips : Int
  bet : Int
  folded : Bool
  isAllIn : Bool
  isDealer : Bool
  isSmallBlind : Bool
  isBigBlind : Bool
  isActive : Bool
  hand : List String
deriving DecidableEq, Repr

/-- `Player.toJSON`. -/
def Player.toJSON (p : Player) : PlayerView :=
  ⟨p.id, p.name, p.chips, p.bet, p.folded, p.isAllIn, p.isDealer,
   p.isSmallBlind, p.isBigBlind, p.isActive, p.hand.map Card.str⟩

/-- The serialized table record of `Table.toJSON`, the payload of every
`tableUpdate` broadcast and of the `performAction` response. The
timer-derived `remainingActionTime` field is real-time data and is omitted.
(The `filter` on community cards drops `undefined` slots, which cannot occur
in the model.) -/
structure TableView where
  id : String
  name : String
  players : List PlayerView
  communityCards : List String
  pot : Int
  currentBet : Int
  smallBlind : Int
  bigBlind : Int
  dealerPosition : Int
  currentPlayerIndex : Int
  stage : GameStage
  maxPlayers : Nat
deriving DecidableEq, Repr

/-- `Table.toJSON`. -/
def Table.toJSON (t : Table) : TableView :=
  ⟨t.id, t.name, t.players.map Player.toJSON, t.communityCards.map Card.str,
   t.pot, t.currentBet, t.smallBlind, t.bigBlind, t.dealerPosition,
   t.currentPlayerIndex, t.stage, t.maxPlayers⟩

/-- The per-player view built by `PokerServer.handleGetTableState`: the hand
is serialized only for the requesting player, `[]` for everyone else. -/
def playerViewFor (viewerId : String) (p : Player) : PlayerView :=
  ⟨p.id, p.name, p.chips, p.bet, p.folded, p.isAllIn, p.isDealer,
   p.isSmallBlind, p.isBigBlind, p.isActive,
   if p.id = viewerId then p.hand.map Card.str else []⟩

/-- The table-state view built by `PokerServer.handleGetTableState` for a
given viewer (its field set differs slightly from `Table.toJSON`; reusing
`TableView` with the handler's fields). -/
def getTableStateView (t : Table) (viewerId : String) : TableView :=
  ⟨t.id, t.name, t.players.map (playerViewFor viewerId),
   t.communityCards.map Card.str, t.pot, t.currentBet, t.smallBlind,
   t.bigBlind, t.dealerPosition, t.currentPlayerIndex, t.stage, t.maxPlayers⟩

/-- The quantity named by the specification's pot-conservation property:
`pot + Σ(player.chips) + Σ(player.bet)` over the seated players (spec §8). -/
def specConservedQuantity (t : Table) : Int :=
  t.pot + (t.players.map Player.chips).sum + (t.players.map Player.bet).sum

/-- The turn-advancement skip condition exactly as the claim states it:
folded, all-in, or — in every stage other than PRE_FLOP — a street bet equal
to `currentBet` (the code additionally requires `currentBet > 0`). -/
def specNextSkip (t : Table) (i : Nat) : Bool :=
  let p := getP t.players i
  p.folded || p.isAllIn ||
    decide (p.bet = t.currentBet ∧ t.stage ≠ GameStage.preFlop)

/-- The table built by the insufficient-chips CALL branch of
`handlePlayerAction` for the acting seat `i`, with the shared tail's
acted/inactive flags applied: the pot takes the caller's whole remaining
stack, the caller's street bet absorbs it, the stack drops to exactly 0 and
the player is marked all-in. A theorem proves `handlePlayerAction` routes
that branch through exactly this state. -/
def Table.callShortState (t : Table) (i : Nat) : Table :=
  { t with
      pot := t.pot + (getP t.players i).chips,
      players := setAt
        (setAt t.players i (fun p =>
          { p with bet := p.bet + p.chips, chips := 0, isAllIn := true }))
        i (fun p => { p with hasActedThisStage := true, isActive := false }) }

/-- Run a sequence of `handlePlayerAction` calls (player id, action string,
amount), keeping each resulting table state. -/
def applyActions (t : Table) : List (String × String × Int) → Table
  | [] => t
  | a :: rest => applyActions (t.handlePlayerAction a.1 a.2.1 a.2.2).2 rest

/-!  Concrete scenarios used by the witnesses and counterexamples.  -/

/-- A nine-card deal-order deck fragment (the hands and board drawn from it
are immaterial to the scenarios that use it). -/
def sampleDeck : List Card :=
  [⟨7, .hearts⟩, ⟨8, .clubs⟩, ⟨9, .diamonds⟩, ⟨10, .hearts⟩, ⟨2, .spades⟩,
   ⟨3, .clubs⟩, ⟨4, .hearts⟩, ⟨5, .diamonds⟩, ⟨6, .spades⟩]

/-- A fresh $5/$10 table. -/
def tableA0 : Table := Table.new "t1" "Sample" 5 10 9

/-- Two players with 1000 chips each; the second join starts the hand, posts
the blinds (small blind seat 1, big blind seat 0) and deals from
`sampleDeck`. -/
def tableA : Table :=
  ((tableA0.addPlayer (Player.new "p0" "Alice" 1000) sampleDeck).2.addPlayer
    (Player.new "p1" "Bob" 1000) sampleDeck).2

/-- `tableA` after the small blind calls pre-flop (an accepted action). -/
def tableA' : Table := (tableA.handlePlayerAction "p1" "call" 0).2

/-- Like `tableA` but the second player has exactly the small blind: posting
it leaves them with 0 chips, all-in, and first to act. -/
def tableB : Table :=
  ((tableA0.addPlayer (Player.new "p0" "Alice" 1000) sampleDeck).2.addPlayer
    (Player.new "p1" "Bob" 5) sampleDeck).2

/-- `tableB` after the broke small blind folds: the other player wins the pot
at once. -/
def tableB' : Table := (tableB.handlePlayerAction "p1" "fold" 0).2

/-- A post-flop state with no open bet (`currentBet = 0`): seat 0 just
checked, seat 1 has not acted yet. -/
def tableC : Table :=
  { Table.new "t2" "Flop" 5 10 9 with
    stage := GameStage.flop,
    players :=
      [{ Player.new "p0" "Alice" 990 with isChecked := true, hasActedThisStage := true },
       Player.new "p1" "Bob" 990],
    pot := 20,
    currentBet := 0,
    dealerPosition := 0,
    currentPlayerIndex := 0 }

/-- Three players who all play the board: the community cards are a royal
flush, so the showdown is a three-way tie; the pot is 100. -/
def tableD : Table :=
  { Table.new "t3" "Tie" 5 10 9 with
    stage := GameStage.showdown,
    players :=
      [{ Player.new "p0" "Alice" 0 with hand := [⟨2, .hearts⟩, ⟨3, .hearts⟩] },
       { Player.new "p1" "Bob" 0 with hand := [⟨2, .diamonds⟩, ⟨3, .diamonds⟩] },
       { Player.new "p2" "Carol" 0 with hand := [⟨2, .clubs⟩, ⟨3, .clubs⟩] }],
    communityCards := [⟨10, .spades⟩, ⟨11, .spades⟩, ⟨12, .spades⟩, ⟨13, .spades⟩, ⟨14, .spades⟩],
    pot := 100,
    dealerPosition := 0,
    currentPlayerIndex := -1 }

/-- A showdown table whose sole non-folded player is broke before the (empty)
pot is paid: the payout leaves them at 0 chips and the removal step fires. -/
def tableE : Table :=
  { Table.new "t4" "Broke" 5 10 9 with
    stage := GameStage.showdown,
    players :=
      [{ Player.new "p0" "Alice" 0 with folded := true },
       Player.new "p1" "Bob" 30],
    pot := 20,
    dealerPosition := 0,
    currentPlayerIndex := -1 }

/-- The first ranked winner of `tableD`'s three-way tie (all three players
play the board's royal flush). -/
def w0D : Nat × HandResult := tableD.showdownWinners.headD (0, default)

/-- The remaining tied winners of `tableD`'s showdown. -/
def restD : List (Nat × HandResult) := tableD.showdownWinners.tail

/-!  Verification-side notions.  -/

/-- The betting streets (the stages in which a hand is live). -/
def inHand : GameStage → Bool
  | .preFlop => true
  | .flop => true
  | .turn => true
  | .river => true
  | _ => false

/-- Number of non-folded players. -/
def nfc (t : Table) : Nat := (t.players.filter (fun p => !p.folded)).length

/-- The conserved quantity of the amended pot-conservation property: the pot
plus all seated chip stacks (street bets are already inside the pot). -/
def money (t : Table) : Int := t.pot + sumChips t.players

/-- All chip stacks are nonnegative. -/
abbrev chipsOK (ps : List Player) : Prop := ∀ p ∈ ps, 0 ≤ p.chips

/-- All street bets are nonnegative and at most the street's target bet. -/
abbrev betsOK (t : Table) : Prop := ∀ p ∈ t.players, 0 ≤ p.bet ∧ p.bet ≤ t.currentBet

/-- The state invariant of a reachable table: nonnegative stacks, pot and big
blind, street bets between 0 and `currentBet`, and at least two contenders
while a betting street is open. -/
abbrev TableInv (t : Table) : Prop :=
  chipsOK t.players ∧ betsOK t ∧ 0 ≤ t.pot ∧ 0 ≤ t.bigBlind ∧
    (inHand t.stage = true → 2 ≤ nfc t)

/-!  Basic lemmas about `setAt`, `getP` and the fold helpers.  -/

theorem setAt_length {α : Type} (l : List α) (i : Nat) (f : α → α) :
    (setAt l i f).length = l.length := by
  induction l generalizing i with
  | nil => rfl
  | cons x xs ih =>
    cases i with
    | zero => rfl
    | succ n => simp [setAt, ih]

theorem map_setAt_of_comm {α β : Type} (l : List α) (i : Nat) (f : α → α)
    (g : α → β) (hf : ∀ x, g (f x) = g x) :
    (setAt l i f).map g = l.map g := by
  induction l generalizing i with
  | nil => rfl
  | cons x xs ih =>
    cases i with
    | zero => simp [setAt, hf]
    | succ n => simp [setAt, ih]

theorem getD_setAt_self {α : Type} [Inhabited α] (l : List α) (i : Nat) (f : α → α)
    (h : i < l.length) :
    (setAt l i f).getD i default = f (l.getD i default) := by
  induction l generalizing i with
  | nil => simp at h
  | cons x xs ih =>
    cases i with
    | zero => simp [setAt]
    | succ n =>
      simp only [setAt, List.getD_cons_succ]
      exact ih n (by simpa using h)

theorem getD_setAt_ne {α : Type} [Inhabited α] (l : List α) (i j : Nat) (f : α → α)
    (h : i ≠ j) :
    (setAt l i f).getD j default = l.getD j default := by
  induction l generalizing i j with
  | nil => rfl
  | cons x xs ih =>
    cases i with
    | zero =>
      cases j with
      | zero => exact absurd rfl h
      | succ m => simp [setAt]
    | succ n =>
      cases j with
      | zero => simp [setAt]
      | succ m =>
        simp only [setAt, List.getD_cons_succ]
        exact ih n m (by omega)

theorem setAt_of_le {α : Type} (l : List α) (i : Nat) (f : α → α)
    (h : l.length ≤ i) : setAt l i f = l := by
  induction l generalizing i with
  | nil => rfl
  | cons x xs ih =>
    cases i with
    | zero => simp at h
    | succ n => simp only [setAt]; rw [ih n (by simpa using h)]

theorem sum_map_setAt {α : Type} [Inhabited α] (l : List α) (i : Nat) (f : α → α)
    (g : α → Int) (h : i < l.length) :
    ((setAt l i f).map g).sum
      = (l.map g).sum + (g (f (l.getD i default)) - g (l.getD i default)) := by
  induction l generalizing i with
  | nil => simp at h
  | cons x xs ih =>
    cases i with
    | zero => simp [setAt]; ring
    | succ n =>
      simp only [setAt, List.map_cons, List.sum_cons, List.getD_cons_succ]
      rw [ih n (by simpa using h)]
      ring

theorem forall_mem_setAt {α : Type} {P : α → Prop} (l : List α) (i : Nat) (f : α → α)
    (h1 : ∀ p ∈ l, P p) (h2 : ∀ p, P p → P (f p)) :
    ∀ q ∈ setAt l i f, P q := by
  induction l generalizing i with
  | nil => simp [setAt]
  | cons x xs ih =>
    cases i with
    | zero =>
      intro q hq
      rcases List.mem_cons.mp hq with hq | hq
      · exact hq ▸ h2 x (h1 x (by simp))
      · exact h1 q (List.mem_cons_of_mem _ hq)
    | succ n =>
      intro q hq
      rcases List.mem_cons.mp hq with hq | hq
      · exact hq ▸ h1 x (by simp)
      · exact ih n (fun p hp => h1 p (List.mem_cons_of_mem _ hp)) q hq

theorem filter_length_setAt_of_comm {α : Type} (l : List α) (i : Nat) (f : α → α)
    (q : α → Bool) (hf : ∀ x, q (f x) = q x) :
    ((setAt l i f).filter q).length = (l.filter q).length := by
  induction l generalizing i with
  | nil => rfl
  | cons x xs ih =>
    cases i with
    | zero =>
      simp only [setAt, List.filter, hf]
      cases q x <;> simp
    | succ n =>
      simp only [setAt, List.filter]
      cases q x <;> simp [ih]

theorem filter_length_setAt_ge {α : Type} (l : List α) (i : Nat) (f : α → α)
    (q : α → Bool) :
    (l.filter q).length ≤ ((setAt l i f).filter q).length + 1 := by
  induction l generalizing i with
  | nil => simp [setAt]
  | cons x xs ih =>
    cases i with
    | zero =>
      simp only [setAt, List.filter]
      cases hx : q x <;> cases hfx : q (f x) <;> simp <;> omega
    | succ n =>
      simp only [setAt, List.filter]
      cases q x with
      | false => exact ih n
      | true => simpa using ih n

theorem sumChips_setAt (ps : List Player) (i : Nat) (f : Player → Player)
    (h : i < ps.length) :
    sumChips (setAt ps i f) = sumChips ps + ((f (getP ps i)).chips - (getP ps i).chips) := by
  simpa [sumChips, getP] using sum_map_setAt ps i f Player.chips h

theorem sumChips_setAt_of_comm (ps : List Player) (i : Nat) (f : Player → Player)
    (hf : ∀ p, (f p).chips = p.chips) :
    sumChips (setAt ps i f) = sumChips ps := by
  simp [sumChips, map_setAt_of_comm ps i f Player.chips hf]

theorem sumChips_addChips (ps : List Player) (i : Nat) (a : Int) (h : i < ps.length) :
    sumChips (addChips ps i a) = sumChips ps + a := by
  rw [addChips, sumChips_setAt ps i _ h]
  ring

theorem addChips_length (ps : List Player) (i : Nat) (a : Int) :
    (addChips ps i a).length = ps.length := setAt_length _ _ _

theorem mem_nonFoldedIdx (ps : List Player) (i : Nat) (h : i ∈ nonFoldedIdx ps) :
    i < ps.length := by
  have := List.mem_filter.mp h
  simpa using List.mem_range.mp this.1

theorem nonFoldedIdx_length (ps : List Player) :
    (nonFoldedIdx ps).length = (ps.filter (fun p => !p.folded)).length := by
  induction ps with
  | nil => rfl
  | cons p ps ih =>
    have hmap : ∀ l : List Nat,
        (l.map Nat.succ).filter (fun i => !(getP (p :: ps) i).folded)
          = (l.filter (fun i => !(getP ps i).folded)).map Nat.succ := by
      intro l
      induction l with
      | nil => rfl
      | cons a l ihl =>
        simp only [List.map_cons, List.filter]
        have : getP (p :: ps) (Nat.succ a) = getP ps a := by simp [getP]
        rw [this]
        cases h : !(getP ps a).folded <;> simp [ihl]
    have hrange : List.range (ps.length + 1) = 0 :: (List.range ps.length).map Nat.succ := by
      simpa using List.range_succ_eq_map ps.length
    simp only [nonFoldedIdx, List.length_cons, hrange, List.filter]
    have h0 : getP (p :: ps) 0 = p := by simp [getP]
    rw [h0, hmap]
    cases hp : !p.folded <;> simp [List.filter, hp, ← ih, nonFoldedIdx]

/-!  Lemmas about `placeBet` and the deal folds.  -/

theorem placeBet_chips (p : Player) (a : Int) :
    ((p.placeBet a).2).chips = p.chips - min a p.chips := rfl

theorem placeBet_fst (p : Player) (a : Int) : (p.placeBet a).1 = min a p.chips := rfl

theorem placeBet_bet (p : Player) (a : Int) :
    ((p.placeBet a).2).bet = p.bet + min a p.chips := rfl

theorem placeBet_folded (p : Player) (a : Int) :
    ((p.placeBet a).2).folded = p.folded := rfl

theorem placeBet_chips_nonneg (p : Player) (a : Int) (h : 0 ≤ p.chips) :
    0 ≤ ((p.placeBet a).2).chips := by
  rw [placeBet_chips]
  have := min_le_right a p.chips
  omega

/-- The generic fold-invariant principle used for the deal loops. -/
theorem foldl_invariant {α β : Type} (f : β → α → β) (P : β → Prop) (l : List α)
    (b : β) (hb : P b) (hf : ∀ x a, P x → P (f x a)) : P (l.foldl f b) := by
  induction l generalizing b with
  | nil => exact hb
  | cons a l ih => exact ih (f b a) (hf b a hb)

theorem dealCommunity_players (t : Table) (k : Nat) :
    (t.dealCommunity k).players = t.players ∧ (t.dealCommunity k).pot = t.pot ∧
    (t.dealCommunity k).currentBet = t.currentBet ∧
    (t.dealCommunity k).stage = t.stage ∧
    (t.dealCommunity k).bigBlind = t.bigBlind ∧
    (t.dealCommunity k).dealerPosition = t.dealerPosition ∧
    (t.dealCommunity k).minPlayers = t.minPlayers := by
  unfold Table.dealCommunity
  refine foldl_invariant _
    (fun (s : Table) => s.players = t.players ∧ s.pot = t.pot ∧ s.currentBet = t.currentBet ∧
      s.stage = t.stage ∧ s.bigBlind = t.bigBlind ∧ s.dealerPosition = t.dealerPosition ∧
      s.minPlayers = t.minPlayers) _ _ ⟨rfl, rfl, rfl, rfl, rfl, rfl, rfl⟩ ?_
  intro s a hs
  match hd : s.deck with
  | [] => simpa [hd] using hs
  | c :: rest => simpa [hd] using hs

theorem dealHoleCardsPass_chips (t : Table) :
    (t.dealHoleCardsPass).players.map Player.chips = t.players.map Player.chips ∧
    (t.dealHoleCardsPass).pot = t.pot := by
  unfold Table.dealHoleCardsPass
  refine foldl_invariant _
    (fun (s : Table) => s.players.map Player.chips = t.players.map Player.chips ∧ s.pot = t.pot)
    _ _ ⟨rfl, rfl⟩ ?_
  intro s a hs
  match hd : s.deck with
  | [] => simpa [hd] using hs
  | c :: rest =>
    refine ⟨?_, by simpa [hd] using hs.2⟩
    have hmap : (setAt s.players a (fun p => p.addCard c)).map Player.chips
        = s.players.map Player.chips :=
      map_setAt_of_comm _ _ _ _ (fun p => rfl)
    simp only [hd]
    rw [hmap]
    exact hs.1

/-!  Lemmas about `removePlayersWithNoChips`, the payout and `determineWinner`. -/

theorem sumChips_filter_pos (ps : List Player) (h : chipsOK ps) :
    sumChips (ps.filter (fun p => !(p.chips ≤ 0))) = sumChips ps := by
  induction ps with
  | nil => rfl
  | cons p ps ih =>
    have hp := h p (by simp)
    have hrest : chipsOK ps := fun q hq => h q (List.mem_cons_of_mem _ hq)
    by_cases hc : p.chips ≤ 0
    · have hz : p.chips = 0 := le_antisymm hc hp
      have hfil : (p :: ps).filter (fun q => !(q.chips ≤ 0))
          = ps.filter (fun q => !(q.chips ≤ 0)) := by
        simp [List.filter, hc]
      rw [hfil, ih hrest]
      simp [sumChips, hz]
    · have hfil : (p :: ps).filter (fun q => !(q.chips ≤ 0))
          = p :: ps.filter (fun q => !(q.chips ≤ 0)) := by
        simp [List.filter, hc]
      rw [hfil]
      have := ih hrest
      simp only [sumChips, List.map_cons, List.sum_cons] at this ⊢
      omega

theorem removePlayersWithNoChips_money (t : Table) (h : chipsOK t.players) :
    money (t.removePlayersWithNoChips) = money t := by
  unfold Table.removePlayersWithNoChips
  dsimp only
  split
  · split <;> simp [money, sumChips_filter_pos t.players h]
  · rfl

theorem removePlayersWithNoChips_chips_pos (t : Table) :
    ∀ p ∈ (t.removePlayersWithNoChips).players, 0 < p.chips := by
  unfold Table.removePlayersWithNoChips
  dsimp only
  split
  · rename_i hlen
    split
    all_goals
      intro p hp
      have := List.mem_filter.mp hp
      have h2 := this.2
      simp at h2
      omega
  · rename_i hlen
    intro p hp
    have h0 : t.players.filter (fun p => p.chips ≤ 0) = [] := by
      cases h : t.players.filter (fun p => decide (p.chips ≤ 0)) with
      | nil => rfl
      | cons a l => rw [h] at hlen; simp at hlen
    have : ∀ q ∈ t.players, ¬ (q.chips ≤ 0) := by
      intro q hq hc
      have : q ∈ t.players.filter (fun p => decide (p.chips ≤ 0)) :=
        List.mem_filter.mpr ⟨hq, by simpa using hc⟩
      rw [h0] at this
      simp at this
    have := this p hp
    omega

theorem removePlayersWithNoChips_fields (t : Table) :
    (t.removePlayersWithNoChips).pot = t.pot ∧
    (t.removePlayersWithNoChips).currentBet = t.currentBet ∧
    (t.removePlayersWithNoChips).bigBlind = t.bigBlind ∧
    ((t.removePlayersWithNoChips).stage = t.stage ∨
      (t.removePlayersWithNoChips).stage = GameStage.waiting) ∧
    (∀ p ∈ (t.removePlayersWithNoChips).players, p ∈ t.players) := by
  unfold Table.removePlayersWithNoChips
  dsimp only
  split
  · split
    all_goals
      refine ⟨rfl, rfl, rfl, by simp, ?_⟩
      intro p hp
      exact (List.mem_filter.mp hp).1
  · exact ⟨rfl, rfl, rfl, Or.inl rfl, fun p hp => hp⟩

theorem showdownEvals_map_fst (t : Table) :
    t.showdownEvals.map Prod.fst = nonFoldedIdx t.players := by
  unfold Table.showdownEvals
  generalize nonFoldedIdx t.players = l
  induction l with
  | nil => rfl
  | cons a l ih => simp only [List.map_cons, ih]

theorem showdownRanked_perm (t : Table) : t.showdownRanked.Perm t.showdownEvals :=
  List.perm_insertionSort _ _

theorem mem_showdownWinners (t : Table) (w : Nat × HandResult)
    (hw : w ∈ t.showdownWinners) : w ∈ t.showdownEvals := by
  refine (showdownRanked_perm t).mem_iff.mp ?_
  unfold Table.showdownWinners at hw
  match h : t.showdownRanked with
  | [] => rw [h] at hw; simp at hw
  | x :: tl =>
    rw [h] at hw
    rcases List.mem_cons.mp hw with hw1 | hw1
    · exact hw1 ▸ List.mem_cons_self x tl
    · exact List.mem_cons_of_mem x ((List.takeWhile_sublist _).mem hw1)

theorem showdownWinners_idx_lt (t : Table) (w : Nat × HandResult)
    (hw : w ∈ t.showdownWinners) : w.1 < t.players.length := by
  have hmem := mem_showdownWinners t w hw
  have : w.1 ∈ t.showdownEvals.map Prod.fst := List.mem_map_of_mem _ hmem
  rw [showdownEvals_map_fst] at this
  exact mem_nonFoldedIdx _ _ this

theorem showdownWinners_ne_nil (t : Table) (h : t.showdownEvals ≠ []) :
    t.showdownWinners ≠ [] := by
  unfold Table.showdownWinners
  match hr : t.showdownRanked with
  | [] =>
    exact absurd (List.Perm.symm (hr ▸ showdownRanked_perm t)).eq_nil h
  | x :: tl => simp

theorem foldl_addChips_length (ws : List (Nat × HandResult)) (ps : List Player) (a : Int) :
    (ws.foldl (fun ps w => addChips ps w.1 a) ps).length = ps.length := by
  induction ws generalizing ps with
  | nil => rfl
  | cons w ws ih => simp only [List.foldl_cons]; rw [ih, addChips_length]

theorem foldl_addChips_sum (ws : List (Nat × HandResult)) (ps : List Player) (a : Int)
    (h : ∀ w ∈ ws, w.1 < ps.length) :
    sumChips (ws.foldl (fun ps w => addChips ps w.1 a) ps)
      = sumChips ps + a * ws.length := by
  induction ws generalizing ps with
  | nil => simp
  | cons w ws ih =>
    simp only [List.foldl_cons]
    rw [ih (addChips ps w.1 a) (fun v hv => by
      rw [addChips_length]; exact h v (List.mem_cons_of_mem _ hv))]
    rw [sumChips_addChips ps w.1 a (h w (List.mem_cons_self _ _))]
    simp [List.length_cons]
    ring

theorem forall_mem_foldl_addChips {P : Player → Prop} {a : Int}
    (h2 : ∀ (p : Player), P p → P { p with chips := p.chips + a })
    (ws : List (Nat × HandResult)) (ps : List Player)
    (h1 : ∀ p ∈ ps, P p) :
    ∀ q ∈ ws.foldl (fun ps w => addChips ps w.1 a) ps, P q := by
  induction ws generalizing ps with
  | nil => exact h1
  | cons w ws ih =>
    simp only [List.foldl_cons]
    exact ih _ (forall_mem_setAt _ _ _ h1 h2)

theorem headD_mem {α : Type} (l : List α) (d : α) (h : l ≠ []) : l.headD d ∈ l := by
  match l with
  | [] => exact absurd rfl h
  | x :: xs => simp

theorem payoutPlayers_money (t : Table) (h1 : 1 ≤ (nonFoldedIdx t.players).length) :
    sumChips t.payoutPlayers = sumChips t.players + t.pot := by
  unfold Table.payoutPlayers
  dsimp only
  split
  · rename_i hone
    have hne : nonFoldedIdx t.players ≠ [] := by
      intro hnil; rw [hnil] at hone; simp at hone
    exact sumChips_addChips _ _ _ (mem_nonFoldedIdx _ _ (headD_mem _ _ hne))
  · rename_i hnotone
    have h2 : 2 ≤ (nonFoldedIdx t.players).length := by omega
    have hev : t.showdownEvals ≠ [] := by
      intro hnil
      have := congrArg List.length (showdownEvals_map_fst t)
      rw [hnil] at this
      simp at this
      omega
    have hwne : t.showdownWinners ≠ [] := showdownWinners_ne_nil t hev
    have hk : 1 ≤ t.showdownWinners.length := by
      cases hw : t.showdownWinners with
      | nil => exact absurd hw hwne
      | cons a l => simp
    have hvalid : ∀ w ∈ t.showdownWinners, w.1 < t.players.length :=
      fun w hw => showdownWinners_idx_lt t w hw
    set k : Int := (t.showdownWinners.length : Int) with hkdef
    have hk0 : k ≠ 0 := by
      have hkpos : (0 : Int) < k := by rw [hkdef]; exact_mod_cast hk
      omega
    have hsum := foldl_addChips_sum t.showdownWinners t.players (t.pot / k) hvalid
    have hdm := Int.ediv_add_emod t.pot k
    split
    · rename_i hrem
      match hw : t.showdownWinners with
      | [] => exact absurd hw hwne
      | w :: ws =>
        have hwlt : w.1 < (t.showdownWinners.foldl
            (fun ps v => addChips ps v.1 (t.pot / k)) t.players).length := by
          rw [foldl_addChips_length]
          exact hvalid w (by rw [hw]; exact List.mem_cons_self _ _)
        rw [hw] at hwlt
        rw [sumChips_addChips _ _ _ hwlt]
        rw [hw] at hsum
        rw [hsum]
        rw [hw] at hkdef
        push_cast [hkdef] at hdm ⊢
        linarith
    · rename_i hrem
      have hrnn : 0 ≤ t.pot % k := Int.emod_nonneg t.pot hk0
      have hr0 : t.pot % k = 0 := by omega
      rw [hsum]
      rw [hr0] at hdm
      push_cast [hkdef] at hdm ⊢
      linarith

theorem payoutPlayers_chipsOK (t : Table) (hc : chipsOK t.players) (hp : 0 ≤ t.pot) :
    chipsOK t.payoutPlayers := by
  unfold Table.payoutPlayers
  dsimp only
  have hstep : ∀ (a : Int), 0 ≤ a → ∀ (p : Player), 0 ≤ p.chips →
      (0 : Int) ≤ p.chips + a := fun a ha p hpc => by omega
  split
  · exact forall_mem_setAt _ _ _ hc (fun p hpc => hstep t.pot hp p hpc)
  · have hwa : 0 ≤ t.pot / (t.showdownWinners.length : Int) :=
      Int.ediv_nonneg hp (by positivity)
    have hfold : chipsOK (t.showdownWinners.foldl
        (fun ps w => addChips ps w.1 (t.pot / (t.showdownWinners.length : Int))) t.players) := by
      refine forall_mem_foldl_addChips (fun p hpa => ?_) _ _ hc
      show (0 : Int) ≤ p.chips + t.pot / (t.showdownWinners.length : Int)
      omega
    split
    · rename_i hrem
      split
      · exact hfold
      · rename_i w ws hw
        refine forall_mem_setAt _ _ _ hfold (fun p hp => ?_)
        show (0 : Int) ≤ p.chips + t.pot % (t.showdownWinners.length : Int)
        have : (0 : Int) ≤ t.pot % (t.showdownWinners.length : Int) := le_of_lt hrem
        omega
    · exact hfold

theorem forall_mem_payoutPlayers {P : Player → Prop}
    (hch : ∀ (p : Player) (a : Int), P p → P { p with chips := p.chips + a })
    (t : Table) (h1 : ∀ p ∈ t.players, P p) : ∀ q ∈ t.payoutPlayers, P q := by
  unfold Table.payoutPlayers
  dsimp only
  split
  · exact forall_mem_setAt _ _ _ h1 (fun p hp => hch p t.pot hp)
  · have hfold := forall_mem_foldl_addChips
      (a := t.pot / (t.showdownWinners.length : Int))
      (fun p hp => hch p _ hp) t.showdownWinners t.players h1
    split
    · split
      · exact hfold
      · exact forall_mem_setAt _ _ _ hfold (fun p hp => hch p _ hp)
    · exact hfold

theorem determineWinner_money (t : Table) (hc : chipsOK t.players) (hp : 0 ≤ t.pot)
    (h1 : 1 ≤ (nonFoldedIdx t.players).length) :
    money (t.determineWinner) = money t := by
  unfold Table.determineWinner
  have hmid : chipsOK ({ t with players := t.payoutPlayers, pot := 0 } : Table).players :=
    payoutPlayers_chipsOK t hc hp
  rw [removePlayersWithNoChips_money _ hmid]
  simp only [money]
  rw [payoutPlayers_money t h1]
  ring

theorem determineWinner_chips_pos (t : Table) :
    ∀ p ∈ (t.determineWinner).players, 0 < p.chips :=
  removePlayersWithNoChips_chips_pos _

theorem determineWinner_fields (t : Table) :
    (t.determineWinner).pot = 0 ∧
    (t.determineWinner).currentBet = t.currentBet ∧
    (t.determineWinner).bigBlind = t.bigBlind ∧
    ((t.determineWinner).stage = t.stage ∨ (t.determineWinner).stage = GameStage.waiting) ∧
    (∀ p ∈ (t.determineWinner).players, p ∈ t.payoutPlayers) := by
  have h := removePlayersWithNoChips_fields ({ t with players := t.payoutPlayers, pot := 0 } : Table)
  exact ⟨h.1, h.2.1, h.2.2.1, h.2.2.2.1, h.2.2.2.2⟩

theorem determineWinner_betsOK (t : Table) (hb : betsOK t) :
    ∀ p ∈ (t.determineWinner).players,
      0 ≤ p.bet ∧ p.bet ≤ t.currentBet := by
  intro p hp
  have hmem := (determineWinner_fields t).2.2.2.2 p hp
  exact forall_mem_payoutPlayers (P := fun q => 0 ≤ q.bet ∧ q.bet ≤ t.currentBet)
    (fun q a hq => hq) t hb p hmem

theorem sumChips_map_of_comm (ps : List Player) (f : Player → Player)
    (hf : ∀ p, (f p).chips = p.chips) : sumChips (ps.map f) = sumChips ps := by
  induction ps with
  | nil => rfl
  | cons p ps ih =>
    simp only [List.map_cons, sumChips, List.sum_cons, hf]
    simp only [sumChips] at ih
    omega

theorem filter_length_map_of_comm {α : Type} (l : List α) (f : α → α) (q : α → Bool)
    (hf : ∀ x, q (f x) = q x) :
    ((l.map f).filter q).length = (l.filter q).length := by
  induction l with
  | nil => rfl
  | cons x xs ih =>
    simp only [List.map_cons, List.filter, hf]
    cases q x <;> simp [ih]

theorem resetForNextStage_facts (t : Table) :
    sumChips (t.resetForNextStage).players = sumChips t.players ∧
    (t.resetForNextStage).pot = t.pot ∧
    (t.resetForNextStage).currentBet = 0 ∧
    (t.resetForNextStage).stage = t.stage ∧
    (t.resetForNextStage).bigBlind = t.bigBlind ∧
    nfc (t.resetForNextStage) = nfc t ∧
    (∀ p ∈ (t.resetForNextStage).players, p.bet = 0) ∧
    (chipsOK t.players → chipsOK (t.resetForNextStage).players) := by
  refine ⟨sumChips_map_of_comm _ _ (fun p => rfl), rfl, rfl, rfl, rfl,
    filter_length_map_of_comm _ _ _ (fun p => rfl), ?_, ?_⟩
  · intro p hp
    rcases List.mem_map.mp hp with ⟨q, _, hq⟩
    rw [← hq]
  · intro hc p hp
    rcases List.mem_map.mp hp with ⟨q, hqmem, hq⟩
    rw [← hq]
    exact hc q hqmem

theorem advanceStageDeal_facts (t : Table) :
    (t.advanceStageDeal).players = t.players ∧
    (t.advanceStageDeal).pot = t.pot ∧
    (t.advanceStageDeal).currentBet = t.currentBet ∧
    (t.advanceStageDeal).bigBlind = t.bigBlind ∧
    (inHand (t.advanceStageDeal).stage = true → inHand t.stage = true) ∧
    (t.stage = GameStage.waiting → (t.advanceStageDeal).stage = GameStage.waiting) := by
  unfold Table.advanceStageDeal
  rcases hts : t.stage
  case waiting => simp [hts]
  case showdown => simp [hts]
  case river => simp [hts]
  case preFlop =>
    obtain ⟨h1, h2, h3, _, h5, _, _⟩ := dealCommunity_players t 3
    simp [hts, h1, h2, h3, h5, inHand]
  case flop =>
    obtain ⟨h1, h2, h3, _, h5, _, _⟩ := dealCommunity_players t 1
    simp [hts, h1, h2, h3, h5, inHand]
  case turn =>
    obtain ⟨h1, h2, h3, _, h5, _, _⟩ := dealCommunity_players t 1
    simp [hts, h1, h2, h3, h5, inHand]

theorem nfc_eq_of_players {t s : Table} (h : t.players = s.players) : nfc t = nfc s := by
  simp [nfc, h]

theorem moveToNextStage_ok : ∀ (fuel : Nat) (t : Table),
    chipsOK t.players → betsOK t → 0 ≤ t.pot →
    (inHand t.stage = true → 1 ≤ nfc t) →
    money (Table.moveToNextStage fuel t) = money t ∧
    chipsOK (Table.moveToNextStage fuel t).players ∧
    0 ≤ (Table.moveToNextStage fuel t).pot ∧
    (∀ p ∈ (Table.moveToNextStage fuel t).players,
      0 ≤ p.bet ∧ p.bet ≤ (Table.moveToNextStage fuel t).currentBet) ∧
    (Table.moveToNextStage fuel t).bigBlind = t.bigBlind ∧
    (inHand (Table.moveToNextStage fuel t).stage = true →
      inHand t.stage = true ∧ nfc (Table.moveToNextStage fuel t) = nfc t) := by
  intro fuel
  induction fuel with
  | zero =>
    intro t hc hb hp hn
    exact ⟨rfl, hc, hp, hb, rfl, fun hih => ⟨hih, rfl⟩⟩
  | succ fuel ih =>
    intro t hc hb hp hn
    obtain ⟨hr1, hr2, hr3, hr4, hr5, hr6, hr7, hr8⟩ := resetForNextStage_facts t
    rcases hts : t.stage with _ | _ | _ | _ | _ | _
    case showdown =>
      have hstage : (t.resetForNextStage).stage = GameStage.showdown := hr4.trans hts
      simp only [Table.moveToNextStage, hstage]
      refine ⟨?_, hr8 hc, ?_, ?_, hr5, ?_⟩
      · simp [money, hr1, hr2]
      · rw [hr2]; exact hp
      · intro p hp'
        rw [hr7 p hp', hr3]
        exact ⟨le_refl 0, le_refl 0⟩
      · intro hih
        simp [inHand] at hih
    case river =>
      have hstage : (t.resetForNextStage).stage = GameStage.river := hr4.trans hts
      simp only [Table.moveToNextStage, hstage]
      set mid : Table := { t.resetForNextStage with stage := GameStage.showdown } with hmid
      have hmidp : mid.players = (t.resetForNextStage).players := rfl
      have hmidpot : mid.pot = t.pot := hr2
      have hmidcb : mid.currentBet = 0 := hr3
      have hmidbb : mid.bigBlind = t.bigBlind := hr5
      have hcm : chipsOK mid.players := hr8 hc
      have hpm : 0 ≤ mid.pot := by rw [hmidpot]; exact hp
      have hnfcmid : nfc mid = nfc t := by
        rw [nfc_eq_of_players (t := mid) (s := t.resetForNextStage) rfl, hr6]
      have h1m : 1 ≤ (nonFoldedIdx mid.players).length := by
        rw [nonFoldedIdx_length]
        show 1 ≤ nfc mid
        rw [hnfcmid]
        exact le_trans (by norm_num) (hn (by simp [hts, inHand]))
      obtain ⟨hf1, hf2, hf3, hf4, hf5⟩ := determineWinner_fields mid
      have hbmid : betsOK mid := by
        intro q hq
        rw [hr7 q hq, hmidcb]
        exact ⟨le_refl 0, le_refl 0⟩
      refine ⟨?_, ?_, ?_, ?_, ?_, ?_⟩
      · rw [determineWinner_money mid hcm hpm h1m]
        show mid.pot + sumChips mid.players = money t
        rw [hmidpot, show sumChips mid.players = sumChips t.players from hr1]
        rfl
      · intro p hp'
        exact le_of_lt (determineWinner_chips_pos mid p hp')
      · rw [hf1]
      · intro p hp'
        have := determineWinner_betsOK mid hbmid p hp'
        rw [hf2]
        exact this
      · rw [hf3, hmidbb]
      · intro hih
        rcases hf4 with h | h <;> rw [h] at hih
        · simp [inHand] at hih
        · simp [inHand] at hih
    all_goals (
      have hstage := hr4.trans hts
      simp only [Table.moveToNextStage, hstage]
      obtain ⟨ha1, ha2, ha3, ha4, ha5, ha6⟩ := advanceStageDeal_facts (t.resetForNextStage)
      set t2 : Table := (t.resetForNextStage).advanceStageDeal with ht2
      have hsum2 : sumChips t2.players = sumChips t.players := by rw [ha1, hr1]
      have hc2 : chipsOK t2.players := by rw [ha1]; exact hr8 hc
      have hpot2 : t2.pot = t.pot := by rw [ha2, hr2]
      have hp2 : (0 : Int) ≤ t2.pot := by rw [hpot2]; exact hp
      have hcb2 : t2.currentBet = 0 := by rw [ha3, hr3]
      have hbb2 : t2.bigBlind = t.bigBlind := by rw [ha4, hr5]
      have hbets2 : ∀ p ∈ t2.players, p.bet = 0 := by rw [ha1]; exact hr7
      have hb2 : betsOK t2 := by
        intro q hq
        rw [hbets2 q hq, hcb2]
        exact ⟨le_refl 0, le_refl 0⟩
      have hnfc2 : nfc t2 = nfc t := by rw [nfc_eq_of_players ha1, hr6]
      have hinh2 : inHand t2.stage = true → inHand t.stage = true := by
        intro h2
        rw [← hr4]
        exact ha5 h2
      have hn2 : inHand t2.stage = true → 1 ≤ nfc t2 := by
        intro h2
        rw [hnfc2]
        exact le_trans (by norm_num) (hn (hinh2 h2))
      rcases hscan : Table.stageScan t2.players
          (((t2.dealerPosition + 1) % (t2.players.length : Int)).toNat)
          (((t2.dealerPosition + 1) % (t2.players.length : Int)).toNat)
          (t2.players.length + 1) with _ | j
      · simp only [hscan]
        obtain ⟨ihm, ihc, ihp, ihb, ihbb, ihh⟩ := ih t2 hc2 hb2 hp2 hn2
        refine ⟨?_, ihc, ihp, ihb, by rw [ihbb, hbb2], ?_⟩
        · rw [ihm]
          show t2.pot + sumChips t2.players = money t
          rw [hpot2, hsum2]
          rfl
        · intro hih
          obtain ⟨hh1, hh2⟩ := ihh hih
          exact ⟨hts ▸ hinh2 hh1, by rw [hh2, hnfc2]⟩
      · simp only [hscan]
        refine ⟨?_, ?_, ?_, ?_, ?_, ?_⟩
        · show t2.pot + sumChips
              (setAt t2.players j (fun p => { p with isActive := true })) = money t
          rw [sumChips_setAt_of_comm t2.players j
              (fun p => { p with isActive := true }) (fun p => rfl), hpot2, hsum2]
          rfl
        · exact forall_mem_setAt _ _ _ hc2 (fun p h => h)
        · show (0 : Int) ≤ t2.pot
          exact hp2
        · intro p hp'
          have hb0 : p.bet = 0 := forall_mem_setAt t2.players j
            (fun q => { q with isActive := true }) hbets2 (fun q hq => hq) p hp'
          show 0 ≤ p.bet ∧ p.bet ≤ t2.currentBet
          rw [hb0, hcb2]
          exact ⟨le_refl 0, le_refl 0⟩
        · show t2.bigBlind = t.bigBlind
          exact hbb2
        · intro hih
          refine ⟨hts ▸ hinh2 hih, ?_⟩
          show ((setAt t2.players j (fun p => { p with isActive := true })).filter
              (fun p => !p.folded)).length = nfc t
          rw [filter_length_setAt_of_comm t2.players j
              (fun p => { p with isActive := true }) (fun p => !p.folded) (fun p => rfl)]
          exact hnfc2)

theorem moveToNextPlayer_ok (fuel : Nat) (t : Table)
    (hc : chipsOK t.players) (hb : betsOK t) (hp : 0 ≤ t.pot)
    (hn : inHand t.stage = true → 1 ≤ nfc t) :
    money (t.moveToNextPlayer fuel) = money t ∧
    chipsOK (t.moveToNextPlayer fuel).players ∧
    0 ≤ (t.moveToNextPlayer fuel).pot ∧
    (∀ p ∈ (t.moveToNextPlayer fuel).players,
      0 ≤ p.bet ∧ p.bet ≤ (t.moveToNextPlayer fuel).currentBet) ∧
    (t.moveToNextPlayer fuel).bigBlind = t.bigBlind ∧
    (inHand (t.moveToNextPlayer fuel).stage = true →
      inHand t.stage = true ∧ nfc (t.moveToNextPlayer fuel) = nfc t ∧ nfc t ≠ 1) := by
  unfold Table.moveToNextPlayer
  split
  · rename_i hone
    have hlen1 : (nonFoldedIdx t.players).length = 1 := by
      rw [nonFoldedIdx_length]
      exact hone
    have hne : nonFoldedIdx t.players ≠ [] := by
      intro hnil
      rw [hnil] at hlen1
      simp at hlen1
    have hhd : (nonFoldedIdx t.players).headD 0 < t.players.length :=
      mem_nonFoldedIdx _ _ (headD_mem _ _ hne)
    refine ⟨?_, ?_, le_refl 0, ?_, rfl, ?_⟩
    · show (0 : Int) + sumChips (addChips t.players _ t.pot) = money t
      rw [sumChips_addChips _ _ _ hhd]
      simp [money]
      ring
    · refine forall_mem_setAt _ _ _ hc (fun p hpc => ?_)
      show (0 : Int) ≤ p.chips + t.pot
      omega
    · refine forall_mem_setAt _ _ _ hb (fun p hpb => hpb)
    · intro hih
      simp [inHand] at hih
  · rename_i hnotone
    have hne1 : nfc t ≠ 1 := hnotone
    split
    · obtain ⟨m1, m2, m3, m4, m5, m6⟩ := moveToNextStage_ok fuel t hc hb hp hn
      exact ⟨m1, m2, m3, m4, m5, fun hih => ⟨(m6 hih).1, (m6 hih).2, hne1⟩⟩
    · rcases hscanp : Table.scanNext t (t.currentPlayerIndex.toNat)
          ((t.currentPlayerIndex.toNat + 1) % t.players.length)
          (t.players.length + 1) with _ | j
      · simp only [hscanp]
        obtain ⟨m1, m2, m3, m4, m5, m6⟩ := moveToNextStage_ok fuel t hc hb hp hn
        exact ⟨m1, m2, m3, m4, m5, fun hih => ⟨(m6 hih).1, (m6 hih).2, hne1⟩⟩
      · simp only [hscanp]
        refine ⟨?_, ?_, hp, ?_, trivial, ?_⟩
        · show t.pot + sumChips (setAt t.players j (fun p => { p with isActive := true }))
            = money t
          rw [sumChips_setAt_of_comm t.players j
              (fun p => { p with isActive := true }) (fun p => rfl)]
          rfl
        · exact forall_mem_setAt _ _ _ hc (fun p h => h)
        · exact forall_mem_setAt _ _ _ hb (fun p h => h)
        · intro hih
          refine ⟨hih, ?_, hne1⟩
          show ((setAt t.players j (fun p => { p with isActive := true })).filter
              (fun p => !p.folded)).length = nfc t
          rw [filter_length_setAt_of_comm t.players j
              (fun p => { p with isActive := true }) (fun p => !p.folded) (fun p => rfl)]
          rfl

theorem findIndexId_valid (ps : List Player) (pid : String)
    (h : findIndexId ps pid ≠ -1) :
    0 ≤ findIndexId ps pid ∧ (findIndexId ps pid).toNat < ps.length := by
  induction ps with
  | nil => exact absurd rfl h
  | cons p ps ih =>
    by_cases hid : p.id = pid
    · simp [findIndexId, hid]
    · simp only [findIndexId, hid, if_false] at h ⊢
      by_cases hr : findIndexId ps pid = -1
      · rw [if_pos hr] at h
        exact absurd rfl h
      · rw [if_neg hr] at h ⊢
        obtain ⟨h1, h2⟩ := ih hr
        constructor
        · omega
        · simp only [List.length_cons]
          omega

theorem finish_ok (t t1 : Table) (i : Nat)
    (hm : money t1 = money t)
    (hc1 : chipsOK t1.players)
    (hb1 : betsOK t1)
    (hp1 : 0 ≤ t1.pot)
    (hbb1 : t1.bigBlind = t.bigBlind)
    (hst1 : t1.stage = t.stage)
    (hnfa : nfc t ≤ nfc t1 + 1)
    (hnfb : nfc t1 ≤ nfc t)
    (hW : inHand t.stage = true → 2 ≤ nfc t)
    (hbb : 0 ≤ t.bigBlind) :
    money (Table.moveToNextPlayer 8 { t1 with players := setAt t1.players i (fun p =>
      { p with hasActedThisStage := true, isActive := false }) }) = money t ∧
    TableInv (Table.moveToNextPlayer 8 { t1 with players := setAt t1.players i (fun p =>
      { p with hasActedThisStage := true, isActive := false }) }) := by
  set t2 : Table := { t1 with players := setAt t1.players i (fun p =>
    { p with hasActedThisStage := true, isActive := false }) } with ht2
  have hsum2 : sumChips t2.players = sumChips t1.players :=
    sumChips_setAt_of_comm t1.players i _ (fun p => rfl)
  have hm2 : money t2 = money t := by
    show t1.pot + sumChips t2.players = money t
    rw [hsum2]
    exact hm
  have hc2 : chipsOK t2.players := forall_mem_setAt _ _ _ hc1 (fun p h => h)
  have hb2 : betsOK t2 := forall_mem_setAt _ _ _ hb1 (fun p h => h)
  have hnfc2 : nfc t2 = nfc t1 := by
    show ((setAt t1.players i _).filter _).length = nfc t1
    rw [filter_length_setAt_of_comm t1.players i
        (fun p => { p with hasActedThisStage := true, isActive := false })
        (fun p => !p.folded) (fun p => rfl)]
    rfl
  have hn2 : inHand t2.stage = true → 1 ≤ nfc t2 := by
    intro h2
    have hth : inHand t.stage = true := by
      rw [← hst1]
      exact h2
    have := hW hth
    rw [hnfc2]
    omega
  obtain ⟨m1, m2, m3, m4, m5, m6⟩ := moveToNextPlayer_ok 8 t2 hc2 hb2 hp1 hn2
  refine ⟨m1.trans hm2, m2, m4, m3, ?_, ?_⟩
  · rw [m5]
    show (0 : Int) ≤ t1.bigBlind
    rw [hbb1]
    exact hbb
  · intro hih
    obtain ⟨h1, h2, h3⟩ := m6 hih
    have hth : inHand t.stage = true := by
      rw [← hst1]
      exact h1
    have h4 := hW hth
    rw [h2, hnfc2]
    omega

theorem filter_length_setAt_le {α : Type} (l : List α) (i : Nat) (f : α → α)
    (q : α → Bool) (hf : ∀ x, q (f x) = true → q x = true) :
    ((setAt l i f).filter q).length ≤ (l.filter q).length := by
  induction l generalizing i with
  | nil => simp [setAt]
  | cons x xs ih =>
    cases i with
    | zero =>
      simp only [setAt, List.filter]
      cases hfx : q (f x) with
      | true => rw [hf x hfx]; simp
      | false => cases hx : q x <;> simp <;> omega
    | succ n =>
      simp only [setAt, List.filter]
      cases q x with
      | false => exact ih n
      | true => simpa using ih n

theorem getP_mem (ps : List Player) (i : Nat) (h : i < ps.length) : getP ps i ∈ ps := by
  rw [getP, List.getD_eq_getElem?_getD, List.getElem?_eq_getElem h]
  simp

theorem forall_mem_setAt_getP {P : Player → Prop} (ps : List Player) (i : Nat)
    (f : Player → Player) (h1 : ∀ p ∈ ps, P p)
    (h2 : P (getP ps i) → P (f (getP ps i))) :
    ∀ q ∈ setAt ps i f, P q := by
  induction ps generalizing i with
  | nil => simp [setAt]
  | cons x xs ih =>
    cases i with
    | zero =>
      intro q hq
      rcases List.mem_cons.mp hq with hq | hq
      · subst hq
        exact h2 (h1 _ (by simp [getP]))
      · exact h1 q (List.mem_cons_of_mem _ hq)
    | succ n =>
      intro q hq
      rcases List.mem_cons.mp hq with hq | hq
      · exact hq ▸ h1 x (by simp)
      · exact ih n (fun p hp => h1 p (List.mem_cons_of_mem _ hp))
          (by simpa [getP] using h2) q hq

theorem filter_length_setAt_getP (ps : List Player) (i : Nat) (f : Player → Player)
    (q : Player → Bool) (hf : q (f (getP ps i)) = q (getP ps i)) :
    ((setAt ps i f).filter q).length = (ps.filter q).length := by
  induction ps generalizing i with
  | nil => rfl
  | cons x xs ih =>
    cases i with
    | zero =>
      have hx : q (f x) = q x := by simpa [getP] using hf
      simp only [setAt, List.filter, hx]
      cases q x <;> simp
    | succ n =>
      simp only [setAt, List.filter]
      have := ih n (by simpa [getP] using hf)
      cases q x <;> simp [this]

theorem forall_mem_map_player {P : Player → Prop} (ps : List Player)
    (f : Player → Player) (h1 : ∀ p ∈ ps, P p) (h2 : ∀ p, P p → P (f p)) :
    ∀ q ∈ ps.map f, P q := by
  intro q hq
  rcases List.mem_map.mp hq with ⟨p, hpmem, hpq⟩
  exact hpq ▸ h2 p (h1 p hpmem)

theorem stagePath_ok (t tX : Table)
    (hm : money tX = money t)
    (hcX : chipsOK tX.players)
    (hbX : betsOK tX)
    (hpX : 0 ≤ tX.pot)
    (hbbX : tX.bigBlind = t.bigBlind)
    (hstX : tX.stage = t.stage)
    (hnfX : nfc tX = nfc t)
    (hW : inHand t.stage = true → 2 ≤ nfc t)
    (hbb : 0 ≤ t.bigBlind) :
    money (Table.moveToNextStage 8 tX) = money t ∧
    TableInv (Table.moveToNextStage 8 tX) := by
  have hnX : inHand tX.stage = true → 1 ≤ nfc tX := by
    intro h
    rw [hnfX]
    have := hW (hstX ▸ h)
    omega
  obtain ⟨m1, m2, m3, m4, m5, m6⟩ := moveToNextStage_ok 8 tX hcX hbX hpX hnX
  refine ⟨m1.trans hm, m2, m4, m3, ?_, ?_⟩
  · rw [m5, hbbX]
    exact hbb
  · intro hih
    obtain ⟨h1, h2⟩ := m6 hih
    rw [h2, hnfX]
    exact hW (hstX ▸ h1)

theorem handlePlayerAction_ok (t : Table) (pid act : String) (amt : Int)
    (hinv : TableInv t) :
    money (t.handlePlayerAction pid act amt).2 = money t ∧
    TableInv (t.handlePlayerAction pid act amt).2 := by
  obtain ⟨hc, hb, hp, hbb, hW⟩ := hinv
  unfold Table.handlePlayerAction
  dsimp only
  by_cases hcond : findIndexId t.players pid = -1 ∨
      findIndexId t.players pid ≠ t.currentPlayerIndex
  · rw [if_pos hcond]
    exact ⟨rfl, hc, hb, hp, hbb, hW⟩
  · rw [if_neg hcond]
    push_neg at hcond
    obtain ⟨hge0, hlt⟩ := findIndexId_valid t.players pid hcond.1
    set i : Nat := (findIndexId t.players pid).toNat with hi
    split
    · -- FOLD
      dsimp only
      refine finish_ok t ({ t with players := setAt t.players i Player.fold }) i
        ?_ ?_ ?_ hp rfl rfl ?_ ?_ hW hbb
      · show t.pot + sumChips (setAt t.players i Player.fold) = money t
        rw [sumChips_setAt_of_comm t.players i Player.fold (fun p => rfl)]
        rfl
      · exact forall_mem_setAt _ _ _ hc (fun p h => h)
      · exact forall_mem_setAt _ _ _ hb (fun p h => h)
      · show nfc t ≤ ((setAt t.players i Player.fold).filter (fun p => !p.folded)).length + 1
        exact filter_length_setAt_ge _ _ _ _
      · show ((setAt t.players i Player.fold).filter (fun p => !p.folded)).length ≤ nfc t
        exact filter_length_setAt_le _ _ _ _ (fun x hx => by
          simp [Player.fold] at hx)
    · -- CHECK
      split
      · exact ⟨rfl, hc, hb, hp, hbb, hW⟩
      · rename_i hbet
        split
        · -- everyone has checked: the street ends at once
          dsimp only
          refine stagePath_ok t { t with players := setAt (setAt t.players i (fun p => { p with isChecked := true })) i (fun p => { p with isActive := false }) } ?_ ?_ ?_ hp rfl rfl ?_ hW hbb
          · show t.pot + sumChips (setAt (setAt t.players i _) i _) = money t
            rw [sumChips_setAt_of_comm (setAt t.players i (fun p => { p with isChecked := true })) i
                (fun p => { p with isActive := false }) (fun p => rfl),
              sumChips_setAt_of_comm t.players i
                (fun p => { p with isChecked := true }) (fun p => rfl)]
            rfl
          · exact forall_mem_setAt _ _ _ (forall_mem_setAt _ _ _ hc (fun p h => h)) (fun p h => h)
          · exact forall_mem_setAt _ _ _ (forall_mem_setAt _ _ _ hb (fun p h => h)) (fun p h => h)
          · show ((setAt (setAt t.players i _) i _).filter (fun p => !p.folded)).length = nfc t
            rw [filter_length_setAt_of_comm (setAt t.players i (fun p => { p with isChecked := true })) i
                (fun p => { p with isActive := false }) (fun p => !p.folded) (fun p => rfl),
              filter_length_setAt_of_comm t.players i
                (fun p => { p with isChecked := true }) (fun p => !p.folded) (fun p => rfl)]
            rfl
        · -- normal check
          dsimp only
          refine finish_ok t
            ({ t with players := setAt t.players i (fun p => { p with isChecked := true }) }) i
            ?_ ?_ ?_ hp rfl rfl ?_ ?_ hW hbb
          · show t.pot + sumChips (setAt t.players i _) = money t
            rw [sumChips_setAt_of_comm t.players i
                (fun p => { p with isChecked := true }) (fun p => rfl)]
            rfl
          · exact forall_mem_setAt _ _ _ hc (fun p h => h)
          · exact forall_mem_setAt _ _ _ hb (fun p h => h)
          · show nfc t ≤ ((setAt t.players i _).filter (fun p => !p.folded)).length + 1
            rw [filter_length_setAt_of_comm t.players i
                (fun p => { p with isChecked := true }) (fun p => !p.folded) (fun p => rfl)]
            show nfc t ≤ nfc t + 1
            omega
          · show ((setAt t.players i _).filter (fun p => !p.folded)).length ≤ nfc t
            rw [filter_length_setAt_of_comm t.players i
                (fun p => { p with isChecked := true }) (fun p => !p.folded) (fun p => rfl)]
            exact le_refl _
    · -- CALL
      split
      · -- nothing to call: treated as a check
        refine finish_ok t t i rfl hc hb hp rfl rfl (by omega) (le_refl _) hW hbb
      · rename_i hca
        split
        · -- all-in call for less
          rename_i hins
          have hg := getP_mem t.players i hlt
          have hcg : 0 ≤ (getP t.players i).chips := hc _ hg
          have hbg := hb _ hg
          refine finish_ok t { t with pot := t.pot + (getP t.players i).chips, players := setAt t.players i (fun p => { p with bet := p.bet + p.chips, chips := 0, isAllIn := true }) } i ?_ ?_ ?_ ?_ rfl rfl ?_ ?_ hW hbb
          · show t.pot + (getP t.players i).chips + sumChips (setAt t.players i (fun p => { p with bet := p.bet + p.chips, chips := 0, isAllIn := true })) = money t
            rw [sumChips_setAt t.players i _ hlt]
            show t.pot + (getP t.players i).chips + (sumChips t.players + ((0 : Int) - (getP t.players i).chips)) = t.pot + sumChips t.players
            omega
          · refine forall_mem_setAt_getP t.players i _ hc (fun _ => ?_)
            show (0 : Int) ≤ 0
            omega
          · refine forall_mem_setAt_getP t.players i _ hb (fun hpg => ?_)
            show 0 ≤ (getP t.players i).bet + (getP t.players i).chips ∧
              (getP t.players i).bet + (getP t.players i).chips ≤ t.currentBet
            omega
          · show (0 : Int) ≤ t.pot + (getP t.players i).chips
            omega
          · show nfc t ≤ ((setAt t.players i _).filter (fun p => !p.folded)).length + 1
            rw [filter_length_setAt_getP t.players i
                (fun p => { p with bet := p.bet + p.chips, chips := 0, isAllIn := true })
                (fun p => !p.folded) rfl]
            show nfc t ≤ nfc t + 1
            omega
          · show ((setAt t.players i _).filter (fun p => !p.folded)).length ≤ nfc t
            rw [filter_length_setAt_getP t.players i
                (fun p => { p with bet := p.bet + p.chips, chips := 0, isAllIn := true })
                (fun p => !p.folded) rfl]
            exact le_refl _
        · -- regular call
          rename_i hsuf
          have hg := getP_mem t.players i hlt
          have hcg : 0 ≤ (getP t.players i).chips := hc _ hg
          have hbg := hb _ hg
          refine finish_ok t { t with pot := t.pot + (t.currentBet - (getP t.players i).bet), players := setAt t.players i (fun p => { p with chips := p.chips - (t.currentBet - (getP t.players i).bet), bet := p.bet + (t.currentBet - (getP t.players i).bet) }) } i ?_ ?_ ?_ ?_ rfl rfl ?_ ?_ hW hbb
          · show t.pot + (t.currentBet - (getP t.players i).bet) + sumChips (setAt t.players i (fun p => { p with chips := p.chips - (t.currentBet - (getP t.players i).bet), bet := p.bet + (t.currentBet - (getP t.players i).bet) })) = money t
            rw [sumChips_setAt t.players i _ hlt]
            show t.pot + (t.currentBet - (getP t.players i).bet) + (sumChips t.players + ((getP t.players i).chips - (t.currentBet - (getP t.players i).bet) - (getP t.players i).chips)) = t.pot + sumChips t.players
            omega
          · refine forall_mem_setAt_getP t.players i _ hc (fun hpg => ?_)
            show (0 : Int) ≤ (getP t.players i).chips - (t.currentBet - (getP t.players i).bet)
            omega
          · refine forall_mem_setAt_getP t.players i _ hb (fun hpg => ?_)
            show 0 ≤ (getP t.players i).bet + (t.currentBet - (getP t.players i).bet) ∧
              (getP t.players i).bet + (t.currentBet - (getP t.players i).bet) ≤ t.currentBet
            omega
          · show (0 : Int) ≤ t.pot + (t.currentBet - (getP t.players i).bet)
            omega
          · show nfc t ≤ ((setAt t.players i _).filter (fun p => !p.folded)).length + 1
            rw [filter_length_setAt_getP t.players i
                (fun p => { p with chips := p.chips - (t.currentBet - (getP t.players i).bet), bet := p.bet + (t.currentBet - (getP t.players i).bet) })
                (fun p => !p.folded) rfl]
            show nfc t ≤ nfc t + 1
            omega
          · show ((setAt t.players i _).filter (fun p => !p.folded)).length ≤ nfc t
            rw [filter_length_setAt_getP t.players i
                (fun p => { p with chips := p.chips - (t.currentBet - (getP t.players i).bet), bet := p.bet + (t.currentBet - (getP t.players i).bet) })
                (fun p => !p.folded) rfl]
            exact le_refl _
    · -- BET
      split
      · exact ⟨rfl, hc, hb, hp, hbb, hW⟩
      · rename_i hguard
        push_neg at hguard
        have hg := getP_mem t.players i hlt
        have hcg : 0 ≤ (getP t.players i).chips := hc _ hg
        have hbg := hb _ hg
        have hmin0 : 0 ≤ min amt (getP t.players i).chips :=
          le_min (by omega) hcg
        have hminle : min amt (getP t.players i).chips ≤ amt := min_le_left _ _
        dsimp only
        refine finish_ok t { t with pot := t.pot + ((getP t.players i).placeBet amt).1, currentBet := amt, players := (setAt t.players i (fun x => ((getP t.players i).placeBet amt).2)).map (fun (p : Player) => { p with isChecked := false }) } i ?_ ?_ ?_ ?_ rfl rfl ?_ ?_ hW hbb
        · show t.pot + ((getP t.players i).placeBet amt).1 + sumChips ((setAt t.players i (fun x => ((getP t.players i).placeBet amt).2)).map (fun (p : Player) => { p with isChecked := false })) = money t
          rw [sumChips_map_of_comm (setAt t.players i (fun x => ((getP t.players i).placeBet amt).2)) (fun (p : Player) => { p with isChecked := false }) (fun p => rfl),
            sumChips_setAt t.players i (fun x => ((getP t.players i).placeBet amt).2) hlt]
          show t.pot + ((getP t.players i).placeBet amt).1 + (sumChips t.players + (((getP t.players i).placeBet amt).2.chips - (getP t.players i).chips)) = t.pot + sumChips t.players
          rw [placeBet_fst, placeBet_chips]
          omega
        · refine forall_mem_map_player _ _
            (forall_mem_setAt_getP t.players i _ hc (fun hpg => ?_)) (fun p h => h)
          show (0 : Int) ≤ ((getP t.players i).placeBet amt).2.chips
          exact placeBet_chips_nonneg _ _ hcg
        · refine forall_mem_map_player _ _
            (forall_mem_setAt_getP t.players i (fun x => ((getP t.players i).placeBet amt).2)
              (P := fun p => 0 ≤ p.bet ∧ p.bet ≤ amt) (fun p hpmem => ?_) (fun hpg => ?_))
            (fun p h => h)
          · have := hb p hpmem
            omega
          · show 0 ≤ ((getP t.players i).placeBet amt).2.bet ∧
              ((getP t.players i).placeBet amt).2.bet ≤ amt
            rw [placeBet_bet]
            omega
        · show (0 : Int) ≤ t.pot + ((getP t.players i).placeBet amt).1
          rw [placeBet_fst]
          omega
        · simp only [nfc]
          rw [filter_length_map_of_comm (setAt t.players i (fun x => ((getP t.players i).placeBet amt).2)) (fun (p : Player) => { p with isChecked := false }) (fun p => !p.folded) (fun p => rfl),
            filter_length_setAt_getP t.players i (fun x => ((getP t.players i).placeBet amt).2)
              (fun p => !p.folded) rfl]
          show nfc t ≤ nfc t + 1
          omega
        · simp only [nfc]
          rw [filter_length_map_of_comm (setAt t.players i (fun x => ((getP t.players i).placeBet amt).2)) (fun (p : Player) => { p with isChecked := false }) (fun p => !p.folded) (fun p => rfl),
            filter_length_setAt_getP t.players i (fun x => ((getP t.players i).placeBet amt).2)
              (fun p => !p.folded) rfl]
    · -- RAISE
      split
      · exact ⟨rfl, hc, hb, hp, hbb, hW⟩
      · rename_i hguard
        push_neg at hguard
        have hg := getP_mem t.players i hlt
        have hcg : 0 ≤ (getP t.players i).chips := hc _ hg
        have hbg := hb _ hg
        have hmin0 : 0 ≤ min (amt - (getP t.players i).bet) (getP t.players i).chips :=
          le_min (by omega) hcg
        have hminle : min (amt - (getP t.players i).bet) (getP t.players i).chips
            ≤ amt - (getP t.players i).bet := min_le_left _ _
        dsimp only
        refine finish_ok t { t with pot := t.pot + ((getP t.players i).placeBet (amt - (getP t.players i).bet)).1, currentBet := amt, players := (setAt t.players i (fun x => ((getP t.players i).placeBet (amt - (getP t.players i).bet)).2)).map (fun (p : Player) => { p with isChecked := false }) } i ?_ ?_ ?_ ?_ rfl rfl ?_ ?_ hW hbb
        · show t.pot + ((getP t.players i).placeBet (amt - (getP t.players i).bet)).1 + sumChips ((setAt t.players i (fun x => ((getP t.players i).placeBet (amt - (getP t.players i).bet)).2)).map (fun (p : Player) => { p with isChecked := false })) = money t
          rw [sumChips_map_of_comm (setAt t.players i (fun x => ((getP t.players i).placeBet (amt - (getP t.players i).bet)).2)) (fun (p : Player) => { p with isChecked := false }) (fun p => rfl),
            sumChips_setAt t.players i (fun x => ((getP t.players i).placeBet (amt - (getP t.players i).bet)).2) hlt]
          show t.pot + ((getP t.players i).placeBet (amt - (getP t.players i).bet)).1 + (sumChips t.players + (((getP t.players i).placeBet (amt - (getP t.players i).bet)).2.chips - (getP t.players i).chips)) = t.pot + sumChips t.players
          rw [placeBet_fst, placeBet_chips]
          omega
        · refine forall_mem_map_player _ _
            (forall_mem_setAt_getP t.players i _ hc (fun hpg => ?_)) (fun p h => h)
          show (0 : Int) ≤ ((getP t.players i).placeBet (amt - (getP t.players i).bet)).2.chips
          exact placeBet_chips_nonneg _ _ hcg
        · refine forall_mem_map_player _ _
            (forall_mem_setAt_getP t.players i
              (fun x => ((getP t.players i).placeBet (amt - (getP t.players i).bet)).2)
              (P := fun p => 0 ≤ p.bet ∧ p.bet ≤ amt) (fun p hpmem => ?_) (fun hpg => ?_))
            (fun p h => h)
          · have := hb p hpmem
            omega
          · show 0 ≤ ((getP t.players i).placeBet (amt - (getP t.players i).bet)).2.bet ∧
              ((getP t.players i).placeBet (amt - (getP t.players i).bet)).2.bet ≤ amt
            rw [placeBet_bet]
            omega
        · show (0 : Int) ≤ t.pot + ((getP t.players i).placeBet (amt - (getP t.players i).bet)).1
          rw [placeBet_fst]
          omega
        · simp only [nfc]
          rw [filter_length_map_of_comm (setAt t.players i (fun x => ((getP t.players i).placeBet (amt - (getP t.players i).bet)).2)) (fun (p : Player) => { p with isChecked := false }) (fun p => !p.folded) (fun p => rfl),
            filter_length_setAt_getP t.players i
              (fun x => ((getP t.players i).placeBet (amt - (getP t.players i).bet)).2)
              (fun p => !p.folded) rfl]
          show nfc t ≤ nfc t + 1
          omega
        · simp only [nfc]
          rw [filter_length_map_of_comm (setAt t.players i (fun x => ((getP t.players i).placeBet (amt - (getP t.players i).bet)).2)) (fun (p : Player) => { p with isChecked := false }) (fun p => !p.folded) (fun p => rfl),
            filter_length_setAt_getP t.players i
              (fun x => ((getP t.players i).placeBet (amt - (getP t.players i).bet)).2)
              (fun p => !p.folded) rfl]
    · -- ALL_IN
      have hg := getP_mem t.players i hlt
      have hcg : 0 ≤ (getP t.players i).chips := hc _ hg
      have hbg := hb _ hg
      have hmin0 : 0 ≤ min (getP t.players i).chips (getP t.players i).chips :=
        le_min hcg hcg
      have hcb : t.currentBet ≤ (if t.currentBet < ((getP t.players i).placeBet (getP t.players i).chips).2.bet then ((getP t.players i).placeBet (getP t.players i).chips).2.bet else t.currentBet) ∧
          ((getP t.players i).placeBet (getP t.players i).chips).2.bet ≤ (if t.currentBet < ((getP t.players i).placeBet (getP t.players i).chips).2.bet then ((getP t.players i).placeBet (getP t.players i).chips).2.bet else t.currentBet) := by
        split
        · rename_i hx
          exact ⟨le_of_lt hx, le_refl _⟩
        · rename_i hx
          exact ⟨le_refl _, le_of_not_lt hx⟩
      dsimp only
      refine finish_ok t { t with pot := t.pot + ((getP t.players i).placeBet (getP t.players i).chips).1, currentBet := if t.currentBet < ((getP t.players i).placeBet (getP t.players i).chips).2.bet then ((getP t.players i).placeBet (getP t.players i).chips).2.bet else t.currentBet, players := setAt t.players i (fun x => ((getP t.players i).placeBet (getP t.players i).chips).2) } i ?_ ?_ ?_ ?_ rfl rfl ?_ ?_ hW hbb
      · show t.pot + ((getP t.players i).placeBet (getP t.players i).chips).1 + sumChips (setAt t.players i (fun x => ((getP t.players i).placeBet (getP t.players i).chips).2)) = money t
        rw [sumChips_setAt t.players i _ hlt]
        show t.pot + ((getP t.players i).placeBet (getP t.players i).chips).1 + (sumChips t.players + (((getP t.players i).placeBet (getP t.players i).chips).2.chips - (getP t.players i).chips)) = t.pot + sumChips t.players
        rw [placeBet_fst, placeBet_chips]
        omega
      · refine forall_mem_setAt_getP t.players i _ hc (fun hpg => ?_)
        show (0 : Int) ≤ ((getP t.players i).placeBet (getP t.players i).chips).2.chips
        exact placeBet_chips_nonneg _ _ hcg
      · refine forall_mem_setAt_getP t.players i
          (fun x => ((getP t.players i).placeBet (getP t.players i).chips).2)
          (P := fun p => 0 ≤ p.bet ∧ p.bet ≤ (if t.currentBet < ((getP t.players i).placeBet (getP t.players i).chips).2.bet then ((getP t.players i).placeBet (getP t.players i).chips).2.bet else t.currentBet))
          (fun p hpmem => ?_) (fun hpg => ?_)
        · have := hb p hpmem
          exact ⟨this.1, le_trans this.2 hcb.1⟩
        · constructor
          · show 0 ≤ ((getP t.players i).placeBet (getP t.players i).chips).2.bet
            rw [placeBet_bet]
            omega
          · exact hcb.2
      · show (0 : Int) ≤ t.pot + ((getP t.players i).placeBet (getP t.players i).chips).1
        rw [placeBet_fst]
        omega
      · show nfc t ≤ ((setAt t.players i _).filter (fun p => !p.folded)).length + 1
        rw [filter_length_setAt_getP t.players i
            (fun x => ((getP t.players i).placeBet (getP t.players i).chips).2)
            (fun p => !p.folded) rfl]
        show nfc t ≤ nfc t + 1
        omega
      · show ((setAt t.players i _).filter (fun p => !p.folded)).length ≤ nfc t
        rw [filter_length_setAt_getP t.players i
            (fun x => ((getP t.players i).placeBet (getP t.players i).chips).2)
            (fun p => !p.folded) rfl]
        exact le_refl _
    · -- unknown action string
      exact ⟨rfl, hc, hb, hp, hbb, hW⟩

/-!  Helper lemmas for the payout characterization.  -/

theorem getP_addChips_self (ps : List Player) (i : Nat) (a : Int) (h : i < ps.length) :
    getP (addChips ps i a) i = { getP ps i with chips := (getP ps i).chips + a } :=
  getD_setAt_self ps i _ h

theorem getP_addChips_ne (ps : List Player) (i j : Nat) (a : Int) (h : i ≠ j) :
    getP (addChips ps i a) j = getP ps j :=
  getD_setAt_ne ps i j _ h

theorem getP_foldl_addChips_not_mem (ws : List (Nat × HandResult)) (ps : List Player)
    (a : Int) (j : Nat) (hj : j ∉ ws.map Prod.fst) :
    getP (ws.foldl (fun ps w => addChips ps w.1 a) ps) j = getP ps j := by
  induction ws generalizing ps with
  | nil => rfl
  | cons w ws ih =>
    simp only [List.map_cons, List.mem_cons, not_or] at hj
    simp only [List.foldl_cons]
    rw [ih _ hj.2, getP_addChips_ne _ _ _ _ (fun h => hj.1 h.symm)]

theorem getP_foldl_addChips_mem (ws : List (Nat × HandResult)) (ps : List Player)
    (a : Int) (j : Nat) (hnd : (ws.map Prod.fst).Nodup)
    (hj : j ∈ ws.map Prod.fst) (hlen : ∀ w ∈ ws, w.1 < ps.length) :
    (getP (ws.foldl (fun ps w => addChips ps w.1 a) ps) j).chips
      = (getP ps j).chips + a := by
  induction ws generalizing ps with
  | nil => simp at hj
  | cons w ws ih =>
    simp only [List.map_cons, List.mem_cons] at hj
    simp only [List.map_cons, List.nodup_cons] at hnd
    simp only [List.foldl_cons]
    rcases hj with hj | hj
    · rw [getP_foldl_addChips_not_mem ws _ a j (hj ▸ hnd.1), hj,
        getP_addChips_self ps w.1 a (hlen w (List.mem_cons_self _ _))]
    · rw [ih _ hnd.2 hj (fun v hv => by
        rw [addChips_length]; exact hlen v (List.mem_cons_of_mem _ hv))]
      rw [getP_addChips_ne _ _ _ _ (fun h : w.1 = j => hnd.1 (h ▸ hj))]

theorem nonFoldedIdx_nodup (ps : List Player) : (nonFoldedIdx ps).Nodup :=
  List.Nodup.filter _ (List.nodup_range _)

theorem showdownWinners_sublist (t : Table) :
    t.showdownWinners.Sublist t.showdownRanked := by
  unfold Table.showdownWinners
  rcases hr : t.showdownRanked with _ | ⟨x, tl⟩
  · exact List.Sublist.refl _
  · exact List.Sublist.cons₂ x (List.takeWhile_sublist _)

theorem showdownWinners_fst_nodup (t : Table) :
    (t.showdownWinners.map Prod.fst).Nodup := by
  have h1 : (t.showdownRanked.map Prod.fst).Nodup := by
    have hperm : (t.showdownRanked.map Prod.fst).Perm (t.showdownEvals.map Prod.fst) :=
      (showdownRanked_perm t).map _
    rw [showdownEvals_map_fst] at hperm
    exact hperm.nodup_iff.mpr (nonFoldedIdx_nodup _)
  exact List.Nodup.sublist ((showdownWinners_sublist t).map _) h1

theorem showdownWinners_length_le (t : Table) :
    t.showdownWinners.length ≤ (nonFoldedIdx t.players).length := by
  have h1 := (showdownWinners_sublist t).length_le
  have h2 := (showdownRanked_perm t).length_eq
  have h3 : t.showdownEvals.length = (nonFoldedIdx t.players).length := by
    rw [← showdownEvals_map_fst]; exact (List.length_map _ _).symm
  omega

/-- Claim C5 (confirmed): with two or more tied winners at showdown, every
winner receives `floor(pot / winnerCount)` chips, the first winner in
ranked order additionally receives the remainder `pot % winnerCount`, and
the pot is 0 after `determineWinner`. -/
theorem C5_showdown_split (t : Table) (w0 : Nat × HandResult)
    (rest : List (Nat × HandResult)) (hw : t.showdownWinners = w0 :: rest)
    (hrest : rest ≠ []) (hpot : 0 ≤ t.pot) :
    (getP t.payoutPlayers w0.1).chips
      = (getP t.players w0.1).chips + t.pot / ((rest.length + 1 : Nat) : Int)
          + t.pot % ((rest.length + 1 : Nat) : Int) ∧
    (∀ w ∈ rest, (getP t.payoutPlayers w.1).chips
      = (getP t.players w.1).chips + t.pot / ((rest.length + 1 : Nat) : Int)) ∧
    t.determineWinner.pot = 0 := by
  have hrl : 1 ≤ rest.length := by
    cases rest with
    | nil => exact absurd rfl hrest
    | cons a l => simp
  have hwlen : t.showdownWinners.length = rest.length + 1 := by rw [hw]; rfl
  have hidx2 : 2 ≤ (nonFoldedIdx t.players).length := by
    have := showdownWinners_length_le t
    omega
  have hnd0 := showdownWinners_fst_nodup t
  rw [hw] at hnd0
  have hnd := hnd0
  simp only [List.map_cons, List.nodup_cons] at hnd
  have hltall : ∀ w ∈ w0 :: rest, w.1 < t.players.length := by
    intro w hmem
    exact showdownWinners_idx_lt t w (hw ▸ hmem)
  have hw0lt : w0.1 < t.players.length := hltall w0 (List.mem_cons_self _ _)
  have hremnn : 0 ≤ t.pot % ((rest.length + 1 : Nat) : Int) :=
    Int.emod_nonneg _ (by omega)
  have hpay : t.payoutPlayers
      = (if 0 < t.pot % ((rest.length + 1 : Nat) : Int) then
          addChips
            ((w0 :: rest).foldl
              (fun ps w => addChips ps w.1 (t.pot / ((rest.length + 1 : Nat) : Int)))
              t.players)
            w0.1 (t.pot % ((rest.length + 1 : Nat) : Int))
        else
          (w0 :: rest).foldl
            (fun ps w => addChips ps w.1 (t.pot / ((rest.length + 1 : Nat) : Int)))
            t.players) := by
    unfold Table.payoutPlayers
    dsimp only
    rw [if_neg (show ¬ (nonFoldedIdx t.players).length = 1 by omega), hw]
    simp only [List.length_cons]
  have hpaid0 : (getP
      ((w0 :: rest).foldl
        (fun ps w => addChips ps w.1 (t.pot / ((rest.length + 1 : Nat) : Int)))
        t.players) w0.1).chips
      = (getP t.players w0.1).chips + t.pot / ((rest.length + 1 : Nat) : Int) := by
    refine getP_foldl_addChips_mem _ _ _ _ hnd0 ?_ hltall
    exact List.mem_map_of_mem _ (List.mem_cons_self _ _)
  refine ⟨?_, ?_, (determineWinner_fields t).1⟩
  · rw [hpay]
    by_cases hrem : 0 < t.pot % ((rest.length + 1 : Nat) : Int)
    · rw [if_pos hrem]
      rw [getP_addChips_self _ _ _ (by rw [foldl_addChips_length]; exact hw0lt)]
      dsimp only
      rw [hpaid0]
    · rw [if_neg hrem]
      rw [hpaid0]
      omega
  · intro w hwmem
    have hwne : w0.1 ≠ w.1 :=
      fun h => hnd.1 (h ▸ List.mem_map_of_mem _ hwmem)
    have hpaidw : (getP
        ((w0 :: rest).foldl
          (fun ps w => addChips ps w.1 (t.pot / ((rest.length + 1 : Nat) : Int)))
          t.players) w.1).chips
        = (getP t.players w.1).chips + t.pot / ((rest.length + 1 : Nat) : Int) := by
      refine getP_foldl_addChips_mem _ _ _ _ hnd0 ?_ hltall
      exact List.mem_map_of_mem _ (List.mem_cons_of_mem _ hwmem)
    rw [hpay]
    by_cases hrem : 0 < t.pot % ((rest.length + 1 : Nat) : Int)
    · rw [if_pos hrem, getP_addChips_ne _ _ _ _ hwne, hpaidw]
    · rw [if_neg hrem, hpaidw]

/-!  The seat-scan as an explicit forward search.  -/

theorem add_mod_ne_self (n cur k : Nat) (hcur : cur < n) (hk1 : 1 ≤ k) (hkn : k < n) :
    (cur + k) % n ≠ cur := by
  intro h
  rcases Nat.lt_or_ge (cur + k) n with hlt | hge
  · rw [Nat.mod_eq_of_lt hlt] at h; omega
  · rw [Nat.mod_eq_sub_mod hge, Nat.mod_eq_of_lt (by omega)] at h; omega

theorem scanNext_eq_find_aux (t : Table) (cur : Nat)
    (h2 : 2 ≤ t.players.length) (hcur : cur < t.players.length) :
    ∀ (m s f : Nat), s + (m + 1) = t.players.length → 1 ≤ s → m + 2 ≤ f →
      t.scanNext cur ((cur + s) % t.players.length) f =
        ((List.range' s (m + 1)).map (fun k => (cur + k) % t.players.length)).find?
          (fun c => !(t.nextSkip c)) := by
  intro m
  induction m with
  | zero =>
    intro s f hsm hs1 hf
    obtain ⟨f', rfl⟩ : ∃ f', f = f' + 1 := ⟨f - 1, by omega⟩
    rw [Table.scanNext]
    by_cases hsk : t.nextSkip ((cur + s) % t.players.length) = true
    · rw [if_pos hsk]
      have hc' : ((cur + s) % t.players.length + 1) % t.players.length = cur := by
        rw [Nat.mod_add_mod]
        have : cur + s + 1 = cur + t.players.length := by omega
        rw [this, Nat.add_mod_right, Nat.mod_eq_of_lt hcur]
      rw [if_pos hc']
      simp [List.find?, hsk]
    · rw [if_neg hsk]
      simp only [Bool.not_eq_true] at hsk
      simp [List.find?, hsk]
  | succ m ih =>
    intro s f hsm hs1 hf
    obtain ⟨f', rfl⟩ : ∃ f', f = f' + 1 := ⟨f - 1, by omega⟩
    rw [Table.scanNext]
    by_cases hsk : t.nextSkip ((cur + s) % t.players.length) = true
    · rw [if_pos hsk]
      have hc' : ((cur + s) % t.players.length + 1) % t.players.length
          = (cur + (s + 1)) % t.players.length := by
        rw [Nat.mod_add_mod]
        have : cur + s + 1 = cur + (s + 1) := by omega
        rw [this]
      have hne : (cur + (s + 1)) % t.players.length ≠ cur :=
        add_mod_ne_self _ _ _ hcur (by omega) (by omega)
      rw [hc', if_neg hne]
      rw [ih (s + 1) f' (by omega) (by omega) (by omega)]
      rw [List.range'_succ]
      simp [List.find?, hsk]
    · rw [if_neg hsk]
      simp only [Bool.not_eq_true] at hsk
      rw [List.range'_succ]
      simp [List.find?, hsk]

theorem scanNext_spec (t : Table) (cur : Nat)
    (h2 : 2 ≤ t.players.length) (hcur : cur < t.players.length) :
    t.scanNext cur ((cur + 1) % t.players.length) (t.players.length + 1) =
      ((List.range' 1 (t.players.length - 1)).map
        (fun k => (cur + k) % t.players.length)).find?
        (fun c => !(t.nextSkip c)) := by
  have h := scanNext_eq_find_aux t cur h2 hcur (t.players.length - 2) 1
    (t.players.length + 1) (by omega) (by omega) (by omega)
  have hm : t.players.length - 2 + 1 = t.players.length - 1 := by omega
  rw [hm] at h
  exact h

/-- Claim C8 (corrected): after an action that neither ends the hand nor
completes the round, the engine takes the first seat in forward scan order
that is not skipped, and treats the round as complete (advancing the
stage) when all candidate seats are skipped. The skip condition is
`nextSkip`: folded, all-in, or — only when a bet is open
(`currentBet > 0`) and the stage is not PRE_FLOP — a street bet equal to
`currentBet`; the claim's skip without the `currentBet > 0` condition is
`specNextSkip`, and the two disagree (see the counterexample). -/
theorem C8_turn_advancement_amended (t : Table)
    (hn : 2 ≤ t.players.length)
    (hcur : t.currentPlayerIndex.toNat < t.players.length)
    (hnfc : nfc t ≠ 1)
    (hrc : t.isRoundComplete = false) :
    Table.moveToNextPlayer 8 t =
      (match ((List.range' 1 (t.players.length - 1)).map
          (fun k => (t.currentPlayerIndex.toNat + k) % t.players.length)).find?
          (fun c => !(t.nextSkip c)) with
       | some j =>
         { t with currentPlayerIndex := (j : Int),
                  players := setAt t.players j (fun p => { p with isActive := true }) }
       | none => Table.moveToNextStage 8 t) := by
  unfold Table.moveToNextPlayer
  rw [if_neg (show ¬ (t.players.filter (fun p => !p.folded)).length = 1 from hnfc)]
  rw [if_neg (show ¬ t.isRoundComplete = true by simp [hrc])]
  dsimp only
  rw [scanNext_spec t t.currentPlayerIndex.toNat hn hcur]

/-!  Appending a player (mid-hand join).  -/

theorem getP_append_lt (ps : List Player) (q : Player) (i : Nat) (h : i < ps.length) :
    getP (ps ++ [q]) i = getP ps i := by
  unfold getP
  rw [List.getD_append _ _ _ _ h]

theorem getP_append_self (ps : List Player) (q : Player) :
    getP (ps ++ [q]) ps.length = q := by
  unfold getP
  rw [List.getD_append_right _ _ _ _ (le_refl _)]
  simp

theorem nonFoldedIdx_append (ps : List Player) (q : Player) (hq : q.folded = false) :
    nonFoldedIdx (ps ++ [q]) = nonFoldedIdx ps ++ [ps.length] := by
  unfold nonFoldedIdx
  rw [List.length_append]
  simp only [List.length_cons, List.length_nil]
  rw [List.range_succ, List.filter_append]
  congr 1
  · apply List.filter_congr
    intro i hi
    rw [getP_append_lt ps q i (List.mem_range.mp hi)]
  · simp [List.filter, getP_append_self, hq]

/-- Claim C4 (confirmed): whenever `handlePlayerAction` returns `false` —
wrong player, illegal check, illegal bet, illegal raise, or an unknown
action — the returned table is exactly the input table. -/
theorem C4_rejection_atomicity (t : Table) (pid act : String) (amt : Int)
    (h : (t.handlePlayerAction pid act amt).1 = false) :
    (t.handlePlayerAction pid act amt).2 = t := by
  unfold Table.handlePlayerAction at h ⊢
  dsimp only at h ⊢
  by_cases hcond : findIndexId t.players pid = -1 ∨
      findIndexId t.players pid ≠ t.currentPlayerIndex
  · rw [if_pos hcond]
  · rw [if_neg hcond] at h ⊢
    revert h
    split <;> (try split) <;> (try split) <;> intro h <;>
      first
        | rfl
        | simp at h

theorem applyActions_ok (acts : List (String × String × Int)) (t : Table)
    (hinv : TableInv t) :
    money (applyActions t acts) = money t ∧ TableInv (applyActions t acts) := by
  induction acts generalizing t with
  | nil => exact ⟨rfl, hinv⟩
  | cons a rest ih =>
    have h := handlePlayerAction_ok t a.1 a.2.1 a.2.2 hinv
    have h2 := ih _ h.2
    refine ⟨?_, h2.2⟩
    rw [show applyActions t (a :: rest)
        = applyActions (t.handlePlayerAction a.1 a.2.1 a.2.2).2 rest from rfl,
      h2.1, h.1]

/-- Claim C1 (corrected): along any sequence of `handlePlayerAction` calls
from a state satisfying the table invariant, the quantity `pot + Σ chips`
over the seated players is conserved. The specification's formula
`pot + Σ chips + Σ bet` is not the conserved one: a placed street bet is
added to the pot at once, so it would be counted twice (see the
counterexample). -/
theorem C1_pot_conservation_amended (t : Table) (acts : List (String × String × Int))
    (hinv : TableInv t) :
    money (applyActions t acts) = money t :=
  (applyActions_ok acts t hinv).1

/-- Claim C2 (corrected): the `getTableState` projection served to a viewer
shows a player's hole cards only in that player's own entry; every other
entry has an empty hand. The claim's further reach over the broadcast and
`performAction` payloads fails: those use `Table.toJSON`, which serializes
every player's full hand (see the counterexample). -/
theorem C2_hole_card_confidentiality_amended (t : Table) (viewer : String)
    (v : PlayerView) (hv : v ∈ (getTableStateView t viewer).players)
    (hne : v.id ≠ viewer) : v.hand = [] := by
  unfold getTableStateView at hv
  dsimp only at hv
  rcases List.mem_map.mp hv with ⟨p, hp, rfl⟩
  have hne' : ¬ p.id = viewer := hne
  unfold playerViewFor
  dsimp only
  rw [if_neg hne']

/-- Claim C3 (confirmed): with the acting player seated and on turn,
`handlePlayerAction` returns `false` for a CHECK while the player's street
bet is below `currentBet`, for a BET once a bet is open or below the big
blind, and for a RAISE not strictly above `currentBet` or below twice
`currentBet`. -/
theorem C3_betting_legality (t : Table) (pid : String) (amt : Int)
    (hfound : findIndexId t.players pid ≠ -1)
    (hcur : findIndexId t.players pid = t.currentPlayerIndex) :
    ((getP t.players (findIndexId t.players pid).toNat).bet < t.currentBet →
       (t.handlePlayerAction pid "check" amt).1 = false) ∧
    ((0 < t.currentBet ∨ amt < t.bigBlind) →
       (t.handlePlayerAction pid "bet" amt).1 = false) ∧
    ((amt ≤ t.currentBet ∨ amt < t.currentBet * 2) →
       (t.handlePlayerAction pid "raise" amt).1 = false) := by
  have hcond : ¬ (findIndexId t.players pid = -1 ∨
      findIndexId t.players pid ≠ t.currentPlayerIndex) := by
    push_neg
    exact ⟨hfound, hcur⟩
  refine ⟨fun hb => ?_, fun hb => ?_, fun hb => ?_⟩ <;>
    · unfold Table.handlePlayerAction
      dsimp only
      rw [if_neg hcond]
      split <;> rename_i heq
      all_goals first
        | exact absurd heq (by decide)
        | rfl
        | rw [if_pos hb]

/-- Claim C6 (corrected): after every `determineWinner` resolution —
unconditionally — no seated player with a non-positive stack remains, and
when some player held no chips after the payout (so a removal fired) and
the remaining seat count is below `minPlayers`, the stage is forced to
WAITING. The claim's reach over the fold-to-one early-win resolution
fails: that path in `moveToNextPlayer` pays the pot without any removal
(see the counterexample). -/
theorem C6_elimination_amended (t : Table) :
    (∀ p ∈ (t.determineWinner).players, 0 < p.chips) ∧
    (((t.payoutPlayers).filter (fun p => p.chips ≤ 0)).length ≠ 0 →
      ((t.payoutPlayers).filter (fun p => !(p.chips ≤ 0))).length < t.minPlayers →
      (t.determineWinner).stage = GameStage.waiting) := by
  refine ⟨determineWinner_chips_pos t, fun hdrop hlt => ?_⟩
  unfold Table.determineWinner Table.removePlayersWithNoChips
  dsimp only
  rw [if_pos (Nat.pos_of_ne_zero hdrop), if_pos hlt]

/-- Claim C9 (confirmed): after any `handlePlayerAction` from a state
satisfying the table invariant every chip stack is still nonnegative;
`placeBet` deducts exactly `min(amount, chips)`, never drives a stack
negative, and marks the player all-in when the stack hits 0; and the
insufficient-chips CALL branch (acting player on turn, a positive call
amount exceeding their stack) routes through `callShortState`, which
deducts exactly the player's remaining chips — the stack becomes exactly
0, the street bet absorbs the whole stack, the pot gains it — and marks
them all-in. -/
theorem C9_chips_nonnegative (t : Table) (pid act : String) (amt : Int) (p : Player)
    (hinv : TableInv t) :
    (∀ q ∈ (t.handlePlayerAction pid act amt).2.players, 0 ≤ q.chips) ∧
    (p.placeBet amt).1 = min amt p.chips ∧
    (p.placeBet amt).2.chips = p.chips - min amt p.chips ∧
    0 ≤ (p.placeBet amt).2.chips ∧
    ((p.placeBet amt).2.chips = 0 → (p.placeBet amt).2.isAllIn = true) ∧
    (findIndexId t.players pid ≠ -1 →
     findIndexId t.players pid = t.currentPlayerIndex →
     0 < t.currentBet - (getP t.players (findIndexId t.players pid).toNat).bet →
     (getP t.players (findIndexId t.players pid).toNat).chips
         < t.currentBet - (getP t.players (findIndexId t.players pid).toNat).bet →
     t.handlePlayerAction pid "call" amt
         = (true, Table.moveToNextPlayer 8
             (t.callShortState (findIndexId t.players pid).toNat)) ∧
     (getP (t.callShortState (findIndexId t.players pid).toNat).players
        (findIndexId t.players pid).toNat).chips = 0 ∧
     (getP (t.callShortState (findIndexId t.players pid).toNat).players
        (findIndexId t.players pid).toNat).isAllIn = true ∧
     (getP (t.callShortState (findIndexId t.players pid).toNat).players
        (findIndexId t.players pid).toNat).bet
         = (getP t.players (findIndexId t.players pid).toNat).bet
           + (getP t.players (findIndexId t.players pid).toNat).chips ∧
     (t.callShortState (findIndexId t.players pid).toNat).pot
         = t.pot + (getP t.players (findIndexId t.players pid).toNat).chips) := by
  refine ⟨(handlePlayerAction_ok t pid act amt hinv).2.1, rfl, rfl, ?_, ?_, ?_⟩
  · rw [placeBet_chips]
    have := min_le_right amt p.chips
    omega
  · intro h0
    rw [placeBet_chips] at h0
    unfold Player.placeBet
    dsimp only
    rw [if_pos h0]
  · intro h1 h2 hpos hins
    obtain ⟨hge0, hlt⟩ := findIndexId_valid t.players pid h1
    have hgp : getP (t.callShortState (findIndexId t.players pid).toNat).players
        (findIndexId t.players pid).toNat
        = { getP t.players (findIndexId t.players pid).toNat with
            bet := (getP t.players (findIndexId t.players pid).toNat).bet
              + (getP t.players (findIndexId t.players pid).toNat).chips,
            chips := 0, isAllIn := true, isActive := false,
            hasActedThisStage := true } := by
      unfold Table.callShortState getP
      dsimp only
      rw [getD_setAt_self _ _ _ (by rw [setAt_length]; exact hlt),
          getD_setAt_self _ _ _ hlt]
    refine ⟨?_, by rw [hgp], by rw [hgp], by rw [hgp], rfl⟩
    unfold Table.handlePlayerAction
    dsimp only
    rw [if_neg (show ¬ (findIndexId t.players pid = -1 ∨
        findIndexId t.players pid ≠ t.currentPlayerIndex) by push_neg; exact ⟨h1, h2⟩)]
    split <;> rename_i heq
    all_goals first
      | exact absurd heq (by decide)
      | (rename_i hf hch hc hb hr; exact absurd rfl hc)
      | (rw [if_neg (show ¬ (t.currentBet
            - (getP t.players (findIndexId t.players pid).toNat).bet ≤ 0) by omega),
          if_pos hins]
         unfold Table.callShortState
         rfl)

/-- Claim C10 (confirmed): a successful `addPlayer` while a hand is in
progress (stage not WAITING) appends the new player — empty hand, not
folded, zero bet — without starting a new hand, and the newcomer counts
among the non-folded contenders: their index joins `nonFoldedIdx` and
their empty hand is evaluated by the showdown loop. -/
theorem C10_join_mid_hand (t : Table) (pid name : String) (chips : Int) (deck : List Card)
    (hstage : t.stage ≠ GameStage.waiting)
    (hroom : t.players.length < t.maxPlayers) :
    (t.addPlayer (Player.new pid name chips) deck).1 = true ∧
    (t.addPlayer (Player.new pid name chips) deck).2
      = { t with players := t.players ++ [Player.new pid name chips] } ∧
    (Player.new pid name chips).hand = [] ∧
    (Player.new pid name chips).folded = false ∧
    (Player.new pid name chips).bet = 0 ∧
    nonFoldedIdx (t.addPlayer (Player.new pid name chips) deck).2.players
      = nonFoldedIdx t.players ++ [t.players.length] ∧
    (t.players.length,
      HandEvaluator.evaluateHand []
        (t.addPlayer (Player.new pid name chips) deck).2.communityCards)
      ∈ ((t.addPlayer (Player.new pid name chips) deck).2).showdownEvals := by
  have hadd : (t.addPlayer (Player.new pid name chips) deck)
      = (true, { t with players := t.players ++ [Player.new pid name chips] }) := by
    unfold Table.addPlayer
    dsimp only
    rw [if_neg (by omega : ¬ t.maxPlayers ≤ t.players.length)]
    rw [if_neg (fun h => hstage h.2)]
  refine ⟨by rw [hadd], by rw [hadd], rfl, rfl, rfl, ?_, ?_⟩
  · rw [hadd]
    exact nonFoldedIdx_append t.players (Player.new pid name chips) rfl
  · rw [hadd]
    dsimp only
    unfold Table.showdownEvals
    refine List.mem_map.mpr ⟨t.players.length, ?_, ?_⟩
    · rw [nonFoldedIdx_append t.players (Player.new pid name chips) rfl]
      exact List.mem_append_right _ (List.mem_singleton.mpr rfl)
    · rw [getP_append_self]
      rfl


/-- Claim C7 (confirmed): `evaluateHand` classifies the wheel
{5♣,4♦,3♠,2♥,A♦,9♣,9♦} as a STRAIGHT ordered 5-4-3-2-A (not a pair-based
hand), classifies {A♠,K♠,Q♠,J♠,10♠,2♥,3♦} as a ROYAL_FLUSH, and
`compareHands` ranks Four of a Kind over Full House over Flush over
Straight. -/
theorem C7_hand_evaluation :
    (HandEvaluator.evaluateHand [⟨5, .clubs⟩, ⟨4, .diamonds⟩]
      [⟨3, .spades⟩, ⟨2, .hearts⟩, ⟨14, .diamonds⟩, ⟨9, .clubs⟩, ⟨9, .diamonds⟩]).rank
      = HandRank.STRAIGHT ∧
    ((HandEvaluator.evaluateHand [⟨5, .clubs⟩, ⟨4, .diamonds⟩]
      [⟨3, .spades⟩, ⟨2, .hearts⟩, ⟨14, .diamonds⟩, ⟨9, .clubs⟩, ⟨9, .diamonds⟩]).cards.map
        Card.rank)
      = [5, 4, 3, 2, 14] ∧
    (HandEvaluator.evaluateHand [⟨14, .spades⟩, ⟨13, .spades⟩]
      [⟨12, .spades⟩, ⟨11, .spades⟩, ⟨10, .spades⟩, ⟨2, .hearts⟩, ⟨3, .diamonds⟩]).rank
      = HandRank.ROYAL_FLUSH ∧
    0 < HandEvaluator.compareHands
      (HandEvaluator.evaluateHand [⟨9, .clubs⟩, ⟨9, .diamonds⟩]
        [⟨9, .hearts⟩, ⟨9, .spades⟩, ⟨13, .clubs⟩, ⟨2, .hearts⟩, ⟨3, .diamonds⟩])
      (HandEvaluator.evaluateHand [⟨9, .clubs⟩, ⟨9, .diamonds⟩]
        [⟨9, .hearts⟩, ⟨13, .spades⟩, ⟨13, .clubs⟩, ⟨2, .hearts⟩, ⟨3, .diamonds⟩]) ∧
    0 < HandEvaluator.compareHands
      (HandEvaluator.evaluateHand [⟨9, .clubs⟩, ⟨9, .diamonds⟩]
        [⟨9, .hearts⟩, ⟨13, .spades⟩, ⟨13, .clubs⟩, ⟨2, .hearts⟩, ⟨3, .diamonds⟩])
      (HandEvaluator.evaluateHand [⟨2, .hearts⟩, ⟨5, .hearts⟩]
        [⟨7, .hearts⟩, ⟨9, .hearts⟩, ⟨11, .hearts⟩, ⟨3, .clubs⟩, ⟨4, .diamonds⟩]) ∧
    0 < HandEvaluator.compareHands
      (HandEvaluator.evaluateHand [⟨2, .hearts⟩, ⟨5, .hearts⟩]
        [⟨7, .hearts⟩, ⟨9, .hearts⟩, ⟨11, .hearts⟩, ⟨3, .clubs⟩, ⟨4, .diamonds⟩])
      (HandEvaluator.evaluateHand [⟨5, .clubs⟩, ⟨6, .diamonds⟩]
        [⟨7, .hearts⟩, ⟨8, .spades⟩, ⟨9, .clubs⟩, ⟨2, .hearts⟩, ⟨3, .diamonds⟩]) := by
  decide

/-- Witness for C1: the invariant holds at `tableA` and the conserved
quantity is unchanged by the small blind's accepted call. -/
theorem C1_witness :
    TableInv tableA ∧
    money (applyActions tableA [("p1", "call", 0)]) = money tableA :=
  ⟨by decide, C1_pot_conservation_amended tableA [("p1", "call", 0)] (by decide)⟩

/-- Counterexample to C1 as stated: the small blind's call is accepted,
yet the spec's quantity `pot + Σ chips + Σ bet` changes (2015 to 2020). -/
theorem C1_counterexample :
    (tableA.handlePlayerAction "p1" "call" 0).1 = true ∧
    specConservedQuantity tableA' ≠ specConservedQuantity tableA := by
  decide

/-- Witness for C2: in `tableA`'s state as served to viewer `p1`, the
entry of the other player `p0` has an empty hand. -/
theorem C2_witness :
    (playerViewFor "p1" (getP tableA.players 0)).hand = [] :=
  C2_hole_card_confidentiality_amended tableA "p1"
    (playerViewFor "p1" (getP tableA.players 0)) (by decide) (by decide)

/-- Counterexample to C2 as stated: the serialized `Table.toJSON` payload
of `tableA` (broadcast and `performAction` response) contains another
player's non-empty hole cards. -/
theorem C2_counterexample :
    ∃ v ∈ (Table.toJSON tableA).players, v.id ≠ "p1" ∧ v.hand ≠ [] := by
  decide

/-- Witness for C3: at `tableA` the small blind's check (bet 5 below the
big blind's 10), a bet while one is open, and a raise to exactly the
current bet are all rejected. -/
theorem C3_witness :
    (tableA.handlePlayerAction "p1" "check" 10).1 = false ∧
    (tableA.handlePlayerAction "p1" "bet" 10).1 = false ∧
    (tableA.handlePlayerAction "p1" "raise" 10).1 = false :=
  ⟨(C3_betting_legality tableA "p1" 10 (by decide) (by decide)).1 (by decide),
   (C3_betting_legality tableA "p1" 10 (by decide) (by decide)).2.1 (Or.inl (by decide)),
   (C3_betting_legality tableA "p1" 10 (by decide) (by decide)).2.2 (Or.inl (by decide))⟩

/-- Witness for C4: `p0` acting out of turn at `tableA` is rejected and
leaves the table unchanged. -/
theorem C4_witness : (tableA.handlePlayerAction "p0" "check" 0).2 = tableA :=
  C4_rejection_atomicity tableA "p0" "check" 0 (by decide)

/-- Witness for C5: `tableD`'s three-way board tie on a 100-chip pot pays
the floor share plus remainder to the first ranked winner and the floor
share to the others — concretely 34/33/33. -/
theorem C5_witness :
    ((getP tableD.payoutPlayers w0D.1).chips
       = (getP tableD.players w0D.1).chips + tableD.pot / ((restD.length + 1 : Nat) : Int)
           + tableD.pot % ((restD.length + 1 : Nat) : Int) ∧
     (∀ w ∈ restD, (getP tableD.payoutPlayers w.1).chips
       = (getP tableD.players w.1).chips + tableD.pot / ((restD.length + 1 : Nat) : Int)) ∧
     tableD.determineWinner.pot = 0) ∧
    (tableD.payoutPlayers).map Player.chips = [34, 33, 33] :=
  ⟨C5_showdown_split tableD w0D restD (by decide) (by decide) (by decide), by decide⟩

/-- Witness for C6: at `tableE` the broke folded player is removed by
`determineWinner` and the table drops to WAITING. -/
theorem C6_witness :
    (∀ p ∈ tableE.determineWinner.players, 0 < p.chips) ∧
    tableE.determineWinner.stage = GameStage.waiting :=
  ⟨(C6_elimination_amended tableE).1,
   (C6_elimination_amended tableE).2 (by decide) (by decide)⟩

/-- Counterexample to C6 as stated: after the fold-to-one resolution of
`tableB` the hand is over (SHOWDOWN, pot paid) yet a player with 0 chips
is still seated, even though removing them is required by the claim and
would drop the table below `minPlayers`. -/
theorem C6_counterexample :
    tableB'.stage = GameStage.showdown ∧ tableB'.pot = 0 ∧
    (∃ p ∈ tableB'.players, p.chips ≤ 0) ∧
    (tableB'.players.filter (fun p => !(p.chips ≤ 0))).length < tableB'.minPlayers := by
  decide

/-- Witness for C8: the scan equation instantiated at the post-flop state
`tableC`. -/
theorem C8_witness :
    Table.moveToNextPlayer 8 tableC =
      (match ((List.range' 1 (tableC.players.length - 1)).map
          (fun k => (tableC.currentPlayerIndex.toNat + k) % tableC.players.length)).find?
          (fun c => !(tableC.nextSkip c)) with
       | some j =>
         { tableC with currentPlayerIndex := (j : Int),
                       players := setAt tableC.players j (fun p => { p with isActive := true }) }
       | none => Table.moveToNextStage 8 tableC) :=
  C8_turn_advancement_amended tableC (by decide) (by decide) (by decide) (by decide)

/-- Counterexample to C8 as stated: at `tableC` (flop, `currentBet = 0`)
the claim's skip condition would skip seat 1 and advance the stage, but
the code does not skip it: the accepted check hands the turn to seat 1
and the stage stays FLOP. -/
theorem C8_counterexample :
    specNextSkip tableC 1 = true ∧ tableC.nextSkip 1 = false ∧
    (tableC.handlePlayerAction "p0" "check" 0).1 = true ∧
    (tableC.handlePlayerAction "p0" "check" 0).2.stage = GameStage.flop ∧
    (tableC.handlePlayerAction "p0" "check" 0).2.currentPlayerIndex = 1 := by
  decide

/-- Witness for C9: at `tableB` the broke small blind (5 chips, all posted)
calls a 10-chip bet they cannot cover: all stacks stay nonnegative, the
action routes through the insufficient-chips branch, the caller's stack
becomes exactly 0, their bet absorbs the whole stack and they are marked
all-in; `placeBet` of 0 chips on an empty stack leaves it at exactly 0 and
marks the player all-in. -/
theorem C9_witness :
    (∀ q ∈ (tableB.handlePlayerAction "p1" "call" 0).2.players, 0 ≤ q.chips) ∧
    ((Player.new "px" "X" 0).placeBet 0).1 = min 0 (Player.new "px" "X" 0).chips ∧
    ((Player.new "px" "X" 0).placeBet 0).2.chips
      = (Player.new "px" "X" 0).chips - min 0 (Player.new "px" "X" 0).chips ∧
    0 ≤ ((Player.new "px" "X" 0).placeBet 0).2.chips ∧
    (((Player.new "px" "X" 0).placeBet 0).2.chips = 0 →
      ((Player.new "px" "X" 0).placeBet 0).2.isAllIn = true) ∧
    tableB.handlePlayerAction "p1" "call" 0
      = (true, Table.moveToNextPlayer 8
          (tableB.callShortState (findIndexId tableB.players "p1").toNat)) ∧
    (getP (tableB.callShortState (findIndexId tableB.players "p1").toNat).players
       (findIndexId tableB.players "p1").toNat).chips = 0 ∧
    (getP (tableB.callShortState (findIndexId tableB.players "p1").toNat).players
       (findIndexId tableB.players "p1").toNat).isAllIn = true ∧
    (getP (tableB.callShortState (findIndexId tableB.players "p1").toNat).players
       (findIndexId tableB.players "p1").toNat).bet
      = (getP tableB.players (findIndexId tableB.players "p1").toNat).bet
        + (getP tableB.players (findIndexId tableB.players "p1").toNat).chips ∧
    (tableB.callShortState (findIndexId tableB.players "p1").toNat).pot
      = tableB.pot
        + (getP tableB.players (findIndexId tableB.players "p1").toNat).chips := by
  have h := C9_chips_nonnegative tableB "p1" "call" 0 (Player.new "px" "X" 0) (by decide)
  exact ⟨h.1, h.2.1, h.2.2.1, h.2.2.2.1, h.2.2.2.2.1,
    h.2.2.2.2.2 (by decide) (by decide) (by decide) (by decide)⟩

/-- Witness for C10: `Carol` joining `tableA` mid-hand is seated
immediately with an empty hand and becomes a showdown contender. -/
theorem C10_witness :
    (tableA.addPlayer (Player.new "p2" "Carol" 500) []).1 = true ∧
    (tableA.addPlayer (Player.new "p2" "Carol" 500) []).2
      = { tableA with players := tableA.players ++ [Player.new "p2" "Carol" 500] } ∧
    (Player.new "p2" "Carol" 500).hand = [] ∧
    (Player.new "p2" "Carol" 500).folded = false ∧
    (Player.new "p2" "Carol" 500).bet = 0 ∧
    nonFoldedIdx (tableA.addPlayer (Player.new "p2" "Carol" 500) []).2.players
      = nonFoldedIdx tableA.players ++ [tableA.players.length] ∧
    (tableA.players.length,
      HandEvaluator.evaluateHand []
        (tableA.addPlayer (Player.new "p2" "Carol" 500) []).2.communityCards)
      ∈ ((tableA.addPlayer (Player.new "p2" "Carol" 500) []).2).showdownEvals :=
  C10_join_mid_hand tableA "p2" "Carol" 500 [] (by decide) (by decide)
